import Mathlib

/-!
# Verification of the llm-autoelo tournament engine

A shallow embedding of `prompt_and_rate.py` and `elo.py`.

Modelling conventions:
* SQLite tables become lists of tuples inside a `Store` structure; plain
  `INSERT` is an append, `INSERT OR REPLACE` on a progress table is an
  insert-if-absent (replacing a `processed = 1` row with itself is a no-op).
* A vendor adapter (`get_response` in `src/api/*.py`) is a function
  `String → Option String`: every adapter wraps its network call in a
  catch-all `except Exception` and returns `None` after exhausting its three
  attempts, so the call itself never raises; `none` models that `None`.
* A model configuration is `Option Adapter`: `none` models the case where
  `__import__` / `getattr` raises (`ImportError` / `AttributeError`), i.e. the
  named capability cannot be resolved.
* Python exceptions that the code does not catch are modelled with
  `Except Unit`: in `evaluate_responses`, a `None` evaluator response reaches
  `re.findall(pattern, None, ...)` which raises an uncaught `TypeError`.
* The thread pools in `process_question` are modelled by sequential folds in
  list order.  Every worker touches only its own `(model, question)` key and
  every check-then-write runs under the single process-wide lock, so any
  interleaving of the pool is equivalent to this linearisation when the
  participant names are distinct (Python dict keys are distinct).
* Python floats in `elo.py` are modelled by real numbers.
* Calls to `logging.error` are modelled by appending a `LogEvent`; actual
  adapter and evaluator invocations are recorded in `promptCalls` /
  `evalCalls` so that theorems can speak about "the adapter is not invoked".
-/

namespace AutoElo

/-! ## Verdict extraction: `re.findall(r'<answer>(.*?)</answer>', s, re.IGNORECASE)`

`re.findall` scans left to right for non-overlapping matches.  At each
position the literal `<answer>` is matched case-insensitively; the lazy group
`(.*?)` then extends one character at a time (never across a newline, since
`.` does not match `\n` without `re.DOTALL`) until the earliest
case-insensitive `</answer>`.  Scanning resumes after the end of a match. -/

def openTag : List Char := ['<', 'a', 'n', 's', 'w', 'e', 'r', '>']

def closeTag : List Char := ['<', '/', 'a', 'n', 's', 'w', 'e', 'r', '>']

/-- Case-insensitive literal match of `p` (already lower-case) against a
prefix of `s`. -/
def matchesCI : List Char → List Char → Bool
  | [], _ => true
  | _ :: _, [] => false
  | p :: ps, c :: cs => p == c.toLower && matchesCI ps cs

/-- The lazy group: extend the capture one non-newline character at a time
until the earliest case-insensitive `</answer>`.  Returns the captured
content and the remainder of the input after the close tag. -/
def findClose : List Char → List Char → Option (List Char × List Char)
  | _, [] => none
  | acc, c :: cs =>
    if matchesCI closeTag (c :: cs) then some (acc.reverse, (c :: cs).drop 9)
    else if c = '\n' then none
    else findClose (c :: acc) cs

theorem matchesCI_length {p s : List Char} (h : matchesCI p s = true) :
    p.length ≤ s.length := by
  induction p generalizing s with
  | nil => simp
  | cons a ps ih =>
    cases s with
    | nil => simp [matchesCI] at h
    | cons c cs =>
      simp only [matchesCI, Bool.and_eq_true] at h
      simpa using ih h.2

theorem findClose_length {acc s content rest : List Char}
    (h : findClose acc s = some (content, rest)) : rest.length + 9 ≤ s.length := by
  induction s generalizing acc with
  | nil => simp [findClose] at h
  | cons c cs ih =>
    rw [findClose] at h
    split at h
    · rename_i hm
      have hl := matchesCI_length hm
      simp only [closeTag, List.length_cons] at hl
      injection h with h
      injection h with h₁ h₂
      subst h₂
      simp only [List.length_drop, List.length_cons]
      omega
    · split at h
      · exact absurd h (by simp)
      · have := ih h
        simp only [List.length_cons]
        omega

/-- The scan loop of `re.findall`, structurally recursive on a fuel that
bounds the number of scan steps.  Each step consumes at least one character
(`findClose_length` shows a match consumes at least 17), so fuel equal to
the input length never runs out. -/
def findAnswersGo : Nat → List Char → List (List Char)
  | 0, _ => []
  | _, [] => []
  | fuel + 1, c :: cs =>
    if matchesCI openTag (c :: cs) then
      match findClose [] ((c :: cs).drop 8) with
      | some (content, rest) => content :: findAnswersGo fuel rest
      | none => findAnswersGo fuel cs
    else findAnswersGo fuel cs

/-- All captures of `<answer>(.*?)</answer>` (case-insensitive), left to
right, non-overlapping. -/
def findAnswers (s : List Char) : List (List Char) := findAnswersGo s.length s

/-- `str.strip()` whitespace set (ASCII part). -/
def pyIsSpace (c : Char) : Bool :=
  c = ' ' || c = '\t' || c = '\n' || c = '\r' || c = '\x0b' || c = '\x0c'

/-- `str.strip()`. -/
def pyStrip (s : List Char) : List Char :=
  ((s.dropWhile pyIsSpace).reverse.dropWhile pyIsSpace).reverse

/-- `str.upper()`. -/
def pyUpper (s : List Char) : List Char := s.map Char.toUpper

/-- `matches[-1].strip().upper() if matches else None`. -/
def answerOf (s : String) : Option (List Char) :=
  (findAnswers s.toList).getLast?.map fun m => pyUpper (pyStrip m)

/-- The verdict over the presented pair: `[model_a, model_b]` if the answer
token is exactly `A`, `[model_b, model_a]` if exactly `B`, else `None`. -/
def relationOf (model_a model_b : String) (s : String) : Option (String × String) :=
  match answerOf s with
  | some t =>
    if t = ['A'] then some (model_a, model_b)
    else if t = ['B'] then some (model_b, model_a)
    else none
  | none => none

/-- `str(response)` where `response` is `None` or a string. -/
def pyStr : Option String → String
  | some s => s
  | none => "None"

/-! ## The persisted state store (the four SQLite tables) -/

/-- A row of `evaluation_results`:
`(model_a, model_b, question_id, evaluator_response, punitiveness_relation)`. -/
structure EvalRow where
  model_a : String
  model_b : String
  question_id : Nat
  evaluator_response : String
  relation : Option (String × String)
deriving DecidableEq

/-- The four tables created in `main`.  Progress tables record the keys whose
`processed` column is `1` (the only value ever written). -/
structure Store where
  model_responses : List (String × Nat × String)
  evaluation_results : List EvalRow
  response_progress : List (Nat × String)
  evaluation_progress : List (Nat × String × String)
deriving DecidableEq

/-- `logging.error` events. -/
inductive LogEvent where
  | promptError (model : String)
  | evalError (modelA modelB : String) (questionId : Nat)
deriving DecidableEq

/-- The store plus observable side effects: log lines and the actual
`get_response` invocations made against participant adapters
(`promptCalls`) and the evaluator adapter (`evalCalls`). -/
structure RunState where
  store : Store
  logs : List LogEvent
  promptCalls : List (String × Nat)
  evalCalls : List (String × String × Nat)
deriving DecidableEq

/-- `SELECT response FROM model_responses WHERE model_name = ? AND question_id = ?`. -/
def lookupResponse (s : Store) (name : String) (qid : Nat) : Option String :=
  (s.model_responses.find? fun r => r.1 == name && r.2.1 == qid).map fun r => r.2.2

/-- `SELECT processed FROM response_progress WHERE question_id = ? AND model_name = ?`. -/
def hasRespMarker (s : Store) (qid : Nat) (name : String) : Bool :=
  s.response_progress.contains (qid, name)

/-- `SELECT processed FROM evaluation_progress WHERE question_id = ? AND model_a = ? AND model_b = ?`. -/
def hasEvalMarker (s : Store) (qid : Nat) (a b : String) : Bool :=
  s.evaluation_progress.contains (qid, a, b)

/-- `INSERT INTO model_responses VALUES (?, ?, ?)`. -/
def insertResponse (s : Store) (name : String) (qid : Nat) (text : String) : Store :=
  { s with model_responses := s.model_responses ++ [(name, qid, text)] }

/-- `INSERT INTO evaluation_results VALUES (?, ?, ?, ?, ?)`. -/
def insertEvalResult (s : Store) (a b : String) (qid : Nat) (raw : String)
    (rel : Option (String × String)) : Store :=
  { s with evaluation_results := s.evaluation_results ++ [⟨a, b, qid, raw, rel⟩] }

/-- `INSERT OR REPLACE INTO response_progress VALUES (?, ?, 1)`: replacing a
`(key, 1)` row with itself leaves the table unchanged. -/
def setRespMarker (s : Store) (qid : Nat) (name : String) : Store :=
  if hasRespMarker s qid name then s
  else { s with response_progress := s.response_progress ++ [(qid, name)] }

/-- `INSERT OR REPLACE INTO evaluation_progress VALUES (?, ?, ?, 1)`. -/
def setEvalMarker (s : Store) (qid : Nat) (a b : String) : Store :=
  if hasEvalMarker s qid a b then s
  else { s with evaluation_progress := s.evaluation_progress ++ [(qid, a, b)] }

/-! ## Response collection: `prompt_model` -/

/-- The adapter capability `get_response(question, **{key: option})`, with the
model-specific keyword argument already applied.  Every adapter in
`src/api/` wraps its network call in a catch-all `except` and returns `None`
(here `none`) after exhausting its three attempts, so the call never raises. -/
abbrev Adapter := String → Option String

/-- A model configuration after `__import__`/`getattr`: `none` models
`ImportError`/`AttributeError` (the named capability cannot be resolved). -/
abbrev ModelConfig := Option Adapter

/-- `prompt_model(db_path, model_name, model_config, question_id, question, lock)`.
Returns the new state and the `(model_name, response)` pair. -/
def prompt_model (rs : RunState) (model_name : String) (config : ModelConfig)
    (question_id : Nat) (question : String) : RunState × String × Option String :=
  match lookupResponse rs.store model_name question_id with
  | some stored => (rs, model_name, some stored)
  | none =>
    match config with
    | none =>
      ({ rs with logs := rs.logs ++ [.promptError model_name] }, model_name, none)
    | some get_response =>
      let response := get_response question
      let rs' : RunState :=
        { rs with promptCalls := rs.promptCalls ++ [(model_name, question_id)] }
      let rs'' : RunState :=
        { rs' with store := insertResponse rs'.store model_name question_id (pyStr response) }
      (rs'', model_name, response)

/-! ## Pairwise tournament scheduling: `evaluate_responses` -/

/-- An element of the in-memory `results` list (the dict with keys
`model_A`, `model_B`, `evaluator_response`, `punitiveness_relation`). -/
structure MatchResult where
  model_A : String
  model_B : String
  evaluator_response : String
  punitiveness_relation : Option (String × String)
deriving DecidableEq

/-- Fold with an uncaught-exception channel: a `.error` aborts the remaining
iterations, exactly as an uncaught Python exception aborts the loop. -/
def foldE {σ α : Type} (f : σ → α → Except Unit σ) : σ → List α → Except Unit σ
  | s, [] => .ok s
  | s, a :: l =>
    match f s a with
    | .ok s' => foldE f s' l
    | .error e => .error e

/-- `for i in range(len(model_names)): for j in range(i + 1, len(model_names))`:
the loop order of the nested pair enumeration. -/
def pairList (n : Nat) : List (Nat × Nat) :=
  (List.range n).flatMap fun i => (List.range' (i + 1) (n - (i + 1))).map fun j => (i, j)

/-- Intermediate state of the `evaluate_responses` loop. -/
structure EvalSt where
  rs : RunState
  results : List MatchResult
deriving DecidableEq

/-- The randomised slot assignment of one loop iteration: heads presents
`(names[i], names[j])`, tails presents `(names[j], names[i])`. -/
def presented (names : List String) (rand : Nat → Bool) (item : Nat × Nat × Nat) :
    String × String :=
  if rand item.1 then (names.getD item.2.1 "", names.getD item.2.2 "")
  else (names.getD item.2.2 "", names.getD item.2.1 "")

/-- One iteration of the pair loop.  `item = (k, i, j)` where `k` is the
iteration index (used to index the stream of random draws) and `(i, j)` the
index pair; `available` is the `available_responses` dict built before the
loop.  `.error` models the uncaught `TypeError` that
`re.findall(pattern, None, ...)` raises when the evaluator adapter returned
`None`. -/
def evalStep (qid : Nat) (question : String) (names : List String)
    (evaluator : ModelConfig) (mkPrompt : String → String → String → String)
    (rand : Nat → Bool) (available : String → Option String)
    (st : EvalSt) (item : Nat × Nat × Nat) : Except Unit EvalSt :=
  match available (presented names rand item).1, available (presented names rand item).2 with
  | some respA, some respB =>
    if hasEvalMarker st.rs.store qid (presented names rand item).1
        (presented names rand item).2 then .ok st
    else
      match evaluator with
      | none =>
        .ok { st with rs :=
          { st.rs with logs := st.rs.logs ++
            [.evalError (presented names rand item).1 (presented names rand item).2 qid] } }
      | some get_response_evaluator =>
        match get_response_evaluator (mkPrompt question respA respB) with
        | none => .error ()
        | some evaluation_result =>
          .ok ⟨⟨setEvalMarker (setEvalMarker
                  (insertEvalResult st.rs.store (presented names rand item).1
                    (presented names rand item).2 qid evaluation_result
                    (relationOf (presented names rand item).1
                      (presented names rand item).2 evaluation_result))
                  qid (presented names rand item).1 (presented names rand item).2)
                qid (presented names rand item).2 (presented names rand item).1,
              st.rs.logs, st.rs.promptCalls,
              st.rs.evalCalls ++
                [((presented names rand item).1, (presented names rand item).2, qid)]⟩,
             st.results ++ [⟨(presented names rand item).1, (presented names rand item).2,
               evaluation_result,
               relationOf (presented names rand item).1 (presented names rand item).2
                 evaluation_result⟩]⟩
  | _, _ => .ok st

/-- `evaluate_responses(db_path, question_id, question, model_names,
evaluator_model, eval_prompt, lock)`.  `mkPrompt` is
`eval_prompt.format(question=..., response_A=..., response_B=...)` as a
function of its three placeholders; `rand` is the stream of
`random.random() < 0.5` draws, one per loop iteration. -/
def evaluate_responses (rs : RunState) (qid : Nat) (question : String)
    (names : List String) (evaluator : ModelConfig)
    (mkPrompt : String → String → String → String) (rand : Nat → Bool) :
    Except Unit (RunState × List MatchResult) :=
  match foldE (evalStep qid question names evaluator mkPrompt rand
      (fun name => lookupResponse rs.store name qid)) ⟨rs, []⟩
      (pairList names.length).enum with
  | .ok st => .ok (st.rs, st.results)
  | .error e => .error e

/-! ## Orchestration: `process_question` -/

/-- One step of the response-collection phase: the `response_progress` check
made at submission time, then `prompt_model`, then the
`INSERT OR REPLACE INTO response_progress` made when the future completes. -/
def promptStep (qid : Nat) (question : String)
    (acc : RunState × List (String × Option String)) (p : String × ModelConfig) :
    RunState × List (String × Option String) :=
  if hasRespMarker acc.1.store qid p.1 then acc
  else
    ({ (prompt_model acc.1 p.1 p.2 qid question).1 with
        store := setRespMarker (prompt_model acc.1 p.1 p.2 qid question).1.store qid
          (prompt_model acc.1 p.1 p.2 qid question).2.1 },
     acc.2 ++ [((prompt_model acc.1 p.1 p.2 qid question).2.1,
       (prompt_model acc.1 p.1 p.2 qid question).2.2)])

/-- The `ThreadPoolExecutor` phase of `process_question`, linearised in the
order of the participant list (each worker touches only its own
`(model, question)` key, so this is a faithful linearisation for distinct
participant names). -/
def promptPhase (rs : RunState) (qid : Nat) (question : String)
    (participants : List (String × ModelConfig)) :
    RunState × List (String × Option String) :=
  participants.foldl (promptStep qid question) (rs, [])

/-- The per-question summary dict returned by `process_question`. -/
structure QuestionRecord where
  question_id : Nat
  question : String
  model_responses : List (String × Option String)
  evaluation_results : List MatchResult
deriving DecidableEq

/-- `process_question(db_path, question_id, question, participant_models,
evaluator_model, eval_prompt, lock, max_workers_models)`. -/
def process_question (rs : RunState) (qid : Nat) (question : String)
    (participants : List (String × ModelConfig)) (evaluator : ModelConfig)
    (mkPrompt : String → String → String → String) (rand : Nat → Bool) :
    Except Unit (RunState × QuestionRecord) :=
  match evaluate_responses (promptPhase rs qid question participants).1 qid question
      (participants.map Prod.fst) evaluator mkPrompt rand with
  | .ok (rs', evalResults) =>
    .ok (rs', ⟨qid, question, (promptPhase rs qid question participants).2, evalResults⟩)
  | .error e => .error e

/-- One question of the pipeline: `process_question` for `(item.1 + 1,
item.2)`, collecting the per-question record. -/
def pipelineStep (participants : List (String × ModelConfig)) (evaluator : ModelConfig)
    (mkPrompt : String → String → String → String) (rand : Nat → Nat → Bool)
    (acc : RunState × List QuestionRecord) (item : Nat × String) :
    Except Unit (RunState × List QuestionRecord) :=
  match process_question acc.1 (item.1 + 1) item.2 participants evaluator mkPrompt
      (rand (item.1 + 1)) with
  | .ok (rs', rec) => .ok (rs', acc.2 ++ [rec])
  | .error e => .error e

/-- The question loop of `main`: `enumerate(questions, start=1)`, processed
sequentially (the outer pool's workers touch disjoint question ids).
`rand q` is the stream of random draws used for question `q`. -/
def runPipeline (rs : RunState) (questions : List String)
    (participants : List (String × ModelConfig)) (evaluator : ModelConfig)
    (mkPrompt : String → String → String → String) (rand : Nat → Nat → Bool) :
    Except Unit (RunState × List QuestionRecord) :=
  foldE (pipelineStep participants evaluator mkPrompt rand) (rs, []) questions.enum

/-! ## Rating reduction: `calculate_elo_scores` (from `elo.py`)

Python floats are modelled by real numbers; `10 ** x` is real
exponentiation.  The `scores` dict is an insertion-ordered association list;
`scores[k] = v` on a fresh key appends, on an existing key updates in place.
A `KeyError` (reading `scores[winner]` for a winner that was never entered)
is modelled by `none`, which aborts the fold like the uncaught exception. -/

/-- A row of the `SELECT model_a, model_b, punitiveness_relation` fetch. -/
abbrev EloRecord := String × String × Option (String × String)

/-- `d[key]` if present. -/
def dictGet? : List (String × ℝ) → String → Option ℝ
  | [], _ => none
  | (k, v) :: t, key => if k = key then some v else dictGet? t key

/-- `d[key] = v` on a key already present (in-place, keeps insertion order);
appends when absent. -/
def dictSet : List (String × ℝ) → String → ℝ → List (String × ℝ)
  | [], key, v => [(key, v)]
  | (k, w) :: t, key, v => if k = key then (k, v) :: t else (k, w) :: dictSet t key v

/-- `if k not in scores: scores[k] = initial_score`. -/
def insertDefault (d : List (String × ℝ)) (key : String) (v : ℝ) : List (String × ℝ) :=
  if (dictGet? d key).isSome then d else d ++ [(key, v)]

/-- Fold that aborts on an uncaught exception (`KeyError`). -/
def foldO {σ α : Type} (f : σ → α → Option σ) : σ → List α → Option σ
  | s, [] => some s
  | s, a :: l =>
    match f s a with
    | some s' => foldO f s' l
    | none => none

/-- The body of the `for row in results` loop of `calculate_elo_scores`. -/
noncomputable def eloStep (k_factor initial_score : ℝ) (scores : List (String × ℝ))
    (r : EloRecord) : Option (List (String × ℝ)) :=
  let s1 := insertDefault scores r.1 initial_score
  let s2 := insertDefault s1 r.2.1 initial_score
  match r.2.2 with
  | none => some s2
  | some wl =>
    match dictGet? s2 wl.1, dictGet? s2 wl.2 with
    | some ra, some rb =>
      let ea := 1 / (1 + (10 : ℝ) ^ ((rb - ra) / 400))
      let eb := 1 / (1 + (10 : ℝ) ^ ((ra - rb) / 400))
      let s3 := dictSet s2 wl.1 (ra + k_factor * (1 - ea))
      match dictGet? s3 wl.2 with
      | some rl => some (dictSet s3 wl.2 (rl + k_factor * (0 - eb)))
      | none => none
    | _, _ => none

/-- `calculate_elo_scores(conn, k_factor=32, initial_score=1000)`, with the
fetched rows passed as a list in the store's fetch order. -/
noncomputable def calculate_elo_scores (records : List EloRecord)
    (k_factor : ℝ := 32) (initial_score : ℝ := 1000) : Option (List (String × ℝ)) :=
  foldO (eloStep k_factor initial_score) [] records

/-- The single-record rating update exactly as §4.6 of the spec words it:
`E_winner = 1 / (1 + 10^((R_loser - R_winner)/400))`, `E_loser = 1 - E_winner`,
`R_winner += K*(1 - E_winner)`, `R_loser += K*(0 - E_loser)`.  Stated over the
scores map with both ratings already read; used only to compare the code's
update against the spec's formula. -/
noncomputable def eloUpdateSpec (k_factor : ℝ) (scores : List (String × ℝ))
    (winner loser : String) (rw rl : ℝ) : List (String × ℝ) :=
  let ew := 1 / (1 + (10 : ℝ) ^ ((rl - rw) / 400))
  let el := 1 - ew
  dictSet (dictSet scores winner (rw + k_factor * (1 - ew))) loser
    (rl + k_factor * (0 - el))

/-! ## Association-list lemmas for the scores dict -/

theorem dictGet?_dictSet (d : List (String × ℝ)) (k : String) (v : ℝ) (key : String) :
    dictGet? (dictSet d k v) key = if key = k then some v else dictGet? d key := by
  induction d with
  | nil =>
    by_cases h : key = k
    · simp [dictSet, dictGet?, h]
    · simp [dictSet, dictGet?, h, Ne.symm h]
  | cons p t ih =>
    obtain ⟨k', w⟩ := p
    by_cases h1 : k' = k
    · subst h1
      by_cases h2 : key = k'
      · subst h2; simp [dictSet, dictGet?]
      · simp [dictSet, dictGet?, h2, Ne.symm h2]
    · by_cases h2 : k' = key
      · subst h2
        simp [dictSet, dictGet?, h1]
      · simp [dictSet, dictGet?, h1, h2, ih]

theorem dictGet?_append (d₁ d₂ : List (String × ℝ)) (key : String) :
    dictGet? (d₁ ++ d₂) key =
      match dictGet? d₁ key with
      | some v => some v
      | none => dictGet? d₂ key := by
  induction d₁ with
  | nil => simp [dictGet?]
  | cons p t ih =>
    obtain ⟨k', w⟩ := p
    by_cases h : k' = key <;> simp [dictGet?, h, ih]

theorem dictGet?_insertDefault (d : List (String × ℝ)) (k : String) (v : ℝ) (key : String) :
    dictGet? (insertDefault d k v) key =
      if key = k then some ((dictGet? d k).getD v) else dictGet? d key := by
  unfold insertDefault
  by_cases hk : key = k
  · subst hk
    cases h : dictGet? d key <;> simp [h, dictGet?_append, dictGet?]
  · cases h : dictGet? d k
    · rw [if_neg hk]
      simp only [h, Option.isSome_none, Bool.false_eq_true, if_false, dictGet?_append]
      cases h2 : dictGet? d key
      · simp [dictGet?, Ne.symm hk]
      · simp
    · simp [h, hk]

/-- The algebraic identity behind `E_loser = 1 - E_winner`: the two logistic
expected scores that `calculate_elo_scores` computes independently sum
to one. -/
theorem one_div_one_add_rpow_neg (x : ℝ) :
    1 / (1 + (10 : ℝ) ^ (-x)) = 1 - 1 / (1 + (10 : ℝ) ^ x) := by
  have h1 : (0 : ℝ) < (10 : ℝ) ^ x := Real.rpow_pos_of_pos (by norm_num) x
  rw [Real.rpow_neg (by norm_num : (0 : ℝ) ≤ 10)]
  have h2 : (10 : ℝ) ^ x ≠ 0 := ne_of_gt h1
  have h3 : 1 + (10 : ℝ) ^ x ≠ 0 := by positivity
  field_simp
  ring_nf
  exact Or.inl trivial

theorem dictGet?_insertDefault_self_isSome (d : List (String × ℝ)) (k : String) (v : ℝ) :
    (dictGet? (insertDefault d k v) k).isSome := by
  rw [dictGet?_insertDefault]
  simp

theorem dictGet?_insertDefault_isSome_mono (d : List (String × ℝ)) (k : String) (v : ℝ)
    (key : String) (h : (dictGet? d key).isSome) :
    (dictGet? (insertDefault d k v) key).isSome := by
  rw [dictGet?_insertDefault]
  split <;> simp [h]

theorem dictGet?_dictSet_isSome_mono (d : List (String × ℝ)) (k : String) (v : ℝ)
    (key : String) (h : (dictGet? d key).isSome) :
    (dictGet? (dictSet d k v) key).isSome := by
  rw [dictGet?_dictSet]
  split <;> simp [h]

/-! ## Per-record lemmas about `eloStep` -/

theorem eloStep_none (kf init : ℝ) (scores : List (String × ℝ)) (a b : String) :
    eloStep kf init scores (a, b, none) =
      some (insertDefault (insertDefault scores a init) b init) := rfl

/-- Every post-state of a successful `eloStep` is either the two default
insertions alone (null verdict) or those insertions followed by the two
in-place updates of winner and loser. -/
theorem eloStep_shape (kf init : ℝ) (scores : List (String × ℝ)) (r : EloRecord)
    (s' : List (String × ℝ)) (h : eloStep kf init scores r = some s') :
    s' = insertDefault (insertDefault scores r.1 init) r.2.1 init ∨
    ∃ w l x y, r.2.2 = some (w, l) ∧
      s' = dictSet (dictSet (insertDefault (insertDefault scores r.1 init) r.2.1 init) w x)
        l y := by
  obtain ⟨a, b, rel⟩ := r
  cases rel with
  | none =>
    left
    rw [eloStep_none] at h
    exact (Option.some_inj.mp h).symm
  | some wl =>
    right
    obtain ⟨w, l⟩ := wl
    unfold eloStep at h
    simp only at h
    split at h
    · split at h
      · rename_i ra rb _ _ rl _
        exact ⟨w, l, _, _, rfl, (Option.some_inj.mp h).symm⟩
      · exact absurd h (by simp)
    · exact absurd h (by simp)

theorem eloStep_isSome (kf init : ℝ) (scores : List (String × ℝ)) (r : EloRecord)
    (hr : ∀ wl, r.2.2 = some wl →
      (wl.1 = r.1 ∨ wl.1 = r.2.1) ∧ (wl.2 = r.1 ∨ wl.2 = r.2.1)) :
    ∃ s', eloStep kf init scores r = some s' := by
  obtain ⟨a, b, rel⟩ := r
  cases rel with
  | none => exact ⟨_, eloStep_none kf init scores a b⟩
  | some wl =>
    obtain ⟨w, l⟩ := wl
    have hw : (dictGet? (insertDefault (insertDefault scores a init) b init) w).isSome := by
      rcases (hr (w, l) rfl).1 with h1 | h1 <;> subst h1
      · exact dictGet?_insertDefault_isSome_mono _ _ _ _
          (dictGet?_insertDefault_self_isSome _ _ _)
      · exact dictGet?_insertDefault_self_isSome _ _ _
    have hl : (dictGet? (insertDefault (insertDefault scores a init) b init) l).isSome := by
      rcases (hr (w, l) rfl).2 with h1 | h1 <;> subst h1
      · exact dictGet?_insertDefault_isSome_mono _ _ _ _
          (dictGet?_insertDefault_self_isSome _ _ _)
      · exact dictGet?_insertDefault_self_isSome _ _ _
    obtain ⟨ra, hra⟩ := Option.isSome_iff_exists.mp hw
    obtain ⟨rb, hrb⟩ := Option.isSome_iff_exists.mp hl
    have hl2 : (dictGet? (dictSet (insertDefault (insertDefault scores a init) b init) w
        (ra + kf * (1 - 1 / (1 + (10 : ℝ) ^ ((rb - ra) / 400))))) l).isSome :=
      dictGet?_dictSet_isSome_mono _ _ _ _ (by simp [hrb])
    obtain ⟨rl, hrl⟩ := Option.isSome_iff_exists.mp hl2
    refine ⟨dictSet (dictSet (insertDefault (insertDefault scores a init) b init) w
        (ra + kf * (1 - 1 / (1 + (10 : ℝ) ^ ((rb - ra) / 400))))) l
        (rl + kf * (0 - 1 / (1 + (10 : ℝ) ^ ((ra - rb) / 400)))), ?_⟩
    unfold eloStep
    simp only [hra, hrb, hrl]

/-- On a record with a verdict referencing the pair, the code's update equals
the spec's formula: the code computes `E_loser` by a second logistic
expression while §4.6 words it as `1 - E_winner`; the two agree over ℝ. -/
theorem eloStep_eq_spec (kf init : ℝ) (scores : List (String × ℝ)) (a b winner loser : String)
    (hab : a ≠ b) (hwl : winner = a ∧ loser = b ∨ winner = b ∧ loser = a) :
    ∃ rw rl,
      dictGet? (insertDefault (insertDefault scores a init) b init) winner = some rw ∧
      dictGet? (insertDefault (insertDefault scores a init) b init) loser = some rl ∧
      eloStep kf init scores (a, b, some (winner, loser)) =
        some (eloUpdateSpec kf (insertDefault (insertDefault scores a init) b init)
          winner loser rw rl) := by
  have hwne : loser ≠ winner := by
    rcases hwl with ⟨h1, h2⟩ | ⟨h1, h2⟩ <;> subst h1 <;> subst h2
    · exact hab.symm
    · exact hab
  have hw : (dictGet? (insertDefault (insertDefault scores a init) b init) winner).isSome := by
    rcases hwl with ⟨h1, _⟩ | ⟨h1, _⟩ <;> subst h1
    · exact dictGet?_insertDefault_isSome_mono _ _ _ _
        (dictGet?_insertDefault_self_isSome _ _ _)
    · exact dictGet?_insertDefault_self_isSome _ _ _
  have hl : (dictGet? (insertDefault (insertDefault scores a init) b init) loser).isSome := by
    rcases hwl with ⟨_, h2⟩ | ⟨_, h2⟩ <;> subst h2
    · exact dictGet?_insertDefault_self_isSome _ _ _
    · exact dictGet?_insertDefault_isSome_mono _ _ _ _
        (dictGet?_insertDefault_self_isSome _ _ _)
  obtain ⟨rw_, hrw⟩ := Option.isSome_iff_exists.mp hw
  obtain ⟨rl_, hrl⟩ := Option.isSome_iff_exists.mp hl
  refine ⟨rw_, rl_, hrw, hrl, ?_⟩
  have hset : dictGet? (dictSet (insertDefault (insertDefault scores a init) b init) winner
      (rw_ + kf * (1 - 1 / (1 + (10 : ℝ) ^ ((rl_ - rw_) / 400))))) loser = some rl_ := by
    rw [dictGet?_dictSet, if_neg hwne]
    exact hrl
  unfold eloStep
  simp only [hrw, hrl, hset]
  unfold eloUpdateSpec
  have hx : (rw_ - rl_) / 400 = -((rl_ - rw_) / 400) := by ring
  rw [hx, one_div_one_add_rpow_neg]

theorem dictGet?_insertDefault₂_mention (scores : List (String × ℝ)) (a b : String)
    (init : ℝ) (m : String) (hmem : a = m ∨ b = m)
    (hinv : dictGet? scores m = none ∨ dictGet? scores m = some init) :
    dictGet? (insertDefault (insertDefault scores a init) b init) m = some init := by
  simp only [dictGet?_insertDefault]
  by_cases hmb : m = b
  · rw [if_pos hmb]
    by_cases hba : b = a
    · have ham : m = a := hmb.trans hba
      rw [if_pos hba, ← ham]
      rcases hinv with hv | hv <;> rw [hv] <;> simp
    · rw [if_neg hba, ← hmb]
      rcases hinv with hv | hv <;> rw [hv] <;> simp
  · have ham : m = a := by
      rcases hmem with h1 | h1
      · exact h1.symm
      · exact absurd h1.symm hmb
    rw [if_neg hmb, if_pos ham, ← ham]
    rcases hinv with hv | hv <;> rw [hv] <;> simp

theorem dictGet?_insertDefault₂_other (scores : List (String × ℝ)) (a b : String)
    (init : ℝ) (m : String) (ha : ¬m = a) (hb : ¬m = b) :
    dictGet? (insertDefault (insertDefault scores a init) b init) m =
      dictGet? scores m := by
  simp only [dictGet?_insertDefault, if_neg ha, if_neg hb]

theorem eloStep_m_entry (kf init : ℝ) (scores : List (String × ℝ)) (r : EloRecord)
    (s' : List (String × ℝ)) (m : String) (h : eloStep kf init scores r = some s')
    (hr : ∀ wl, r.2.2 = some wl →
      (wl.1 = r.1 ∨ wl.1 = r.2.1) ∧ (wl.2 = r.1 ∨ wl.2 = r.2.1))
    (hm : r.1 = m ∨ r.2.1 = m → r.2.2 = none)
    (hinv : dictGet? scores m = none ∨ dictGet? scores m = some init) :
    dictGet? s' m = none ∨ dictGet? s' m = some init := by
  by_cases hmem : r.1 = m ∨ r.2.1 = m
  · have hrel := hm hmem
    obtain ⟨a, b, rel⟩ := r
    have hrel2 : rel = none := hrel
    subst hrel2
    rw [eloStep_none] at h
    rw [← Option.some_inj.mp h]
    exact Or.inr (dictGet?_insertDefault₂_mention scores a b init m hmem hinv)
  · push_neg at hmem
    have ha : ¬m = r.1 := fun e => hmem.1 e.symm
    have hb : ¬m = r.2.1 := fun e => hmem.2 e.symm
    rcases eloStep_shape kf init scores r s' h with hs | ⟨w, l, x, y, hrel, hs⟩ <;> subst hs
    · rwa [dictGet?_insertDefault₂_other scores r.1 r.2.1 init m ha hb]
    · have hwl := hr (w, l) hrel
      have hwm : ¬m = w := by
        rcases hwl.1 with h1 | h1 <;> subst h1
        · exact ha
        · exact hb
      have hlm : ¬m = l := by
        rcases hwl.2 with h1 | h1 <;> subst h1
        · exact ha
        · exact hb
      rwa [dictGet?_dictSet, if_neg hlm, dictGet?_dictSet, if_neg hwm,
        dictGet?_insertDefault₂_other scores r.1 r.2.1 init m ha hb]

theorem eloStep_dom_mono (kf init : ℝ) (scores : List (String × ℝ)) (r : EloRecord)
    (s' : List (String × ℝ)) (key : String) (h : eloStep kf init scores r = some s')
    (hk : (dictGet? scores key).isSome) : (dictGet? s' key).isSome := by
  rcases eloStep_shape kf init scores r s' h with hs | ⟨w, l, x, y, _, hs⟩ <;> subst hs
  · exact dictGet?_insertDefault_isSome_mono _ _ _ _
      (dictGet?_insertDefault_isSome_mono _ _ _ _ hk)
  · exact dictGet?_dictSet_isSome_mono _ _ _ _ (dictGet?_dictSet_isSome_mono _ _ _ _
      (dictGet?_insertDefault_isSome_mono _ _ _ _
        (dictGet?_insertDefault_isSome_mono _ _ _ _ hk)))

theorem eloStep_mention_isSome (kf init : ℝ) (scores : List (String × ℝ)) (r : EloRecord)
    (s' : List (String × ℝ)) (m : String) (h : eloStep kf init scores r = some s')
    (hmem : r.1 = m ∨ r.2.1 = m) : (dictGet? s' m).isSome := by
  rcases eloStep_shape kf init scores r s' h with hs | ⟨w, l, x, y, _, hs⟩ <;> subst hs
  · rcases hmem with h1 | h1 <;> subst h1
    · exact dictGet?_insertDefault_isSome_mono _ _ _ _
        (dictGet?_insertDefault_self_isSome _ _ _)
    · exact dictGet?_insertDefault_self_isSome _ _ _
  · refine dictGet?_dictSet_isSome_mono _ _ _ _ (dictGet?_dictSet_isSome_mono _ _ _ _ ?_)
    rcases hmem with h1 | h1 <;> subst h1
    · exact dictGet?_insertDefault_isSome_mono _ _ _ _
        (dictGet?_insertDefault_self_isSome _ _ _)
    · exact dictGet?_insertDefault_self_isSome _ _ _

theorem foldO_cons_inv {σ α : Type} (f : σ → α → Option σ) (s : σ) (a : α) (l : List α)
    (s' : σ) (h : foldO f s (a :: l) = some s') :
    ∃ s₁, f s a = some s₁ ∧ foldO f s₁ l = some s' := by
  unfold foldO at h
  split at h
  · exact ⟨_, by assumption, h⟩
  · exact absurd h (by simp)

/-- Main fold invariant for the Rating Reducer: under the data-model
invariant (a verdict references exactly its record's pair) and the
hypothesis that every record mentioning `m` has a null verdict, the fold
completes, keeps `m`'s entry at `none` or the default, and makes it present
once some record mentions `m`. -/
theorem elo_fold_main (kf init : ℝ) (m : String) :
    ∀ (records : List EloRecord) (scores : List (String × ℝ)),
    (∀ r ∈ records, ∀ wl, r.2.2 = some wl →
      (wl.1 = r.1 ∨ wl.1 = r.2.1) ∧ (wl.2 = r.1 ∨ wl.2 = r.2.1)) →
    (∀ r ∈ records, (r.1 = m ∨ r.2.1 = m) → r.2.2 = none) →
    (dictGet? scores m = none ∨ dictGet? scores m = some init) →
    ∃ s, foldO (eloStep kf init) scores records = some s ∧
      (dictGet? s m = none ∨ dictGet? s m = some init) ∧
      (((∃ r ∈ records, r.1 = m ∨ r.2.1 = m) ∨ (dictGet? scores m).isSome) →
        (dictGet? s m).isSome) := by
  intro records
  induction records with
  | nil =>
    intro scores _ _ hinv
    exact ⟨scores, rfl, hinv, by
      rintro (⟨r, hr, _⟩ | hs)
      · exact absurd hr (List.not_mem_nil r)
      · exact hs⟩
  | cons r t ih =>
    intro scores hpair hnull hinv
    obtain ⟨s₁, hs₁⟩ := eloStep_isSome kf init scores r (hpair r (by simp))
    have hinv₁ := eloStep_m_entry kf init scores r s₁ m hs₁ (hpair r (by simp))
      (hnull r (by simp)) hinv
    obtain ⟨s, hfold, hsinv, hsome⟩ := ih s₁ (fun x hx => hpair x (by simp [hx]))
      (fun x hx => hnull x (by simp [hx])) hinv₁
    refine ⟨s, ?_, hsinv, ?_⟩
    · unfold foldO
      rw [hs₁]
      exact hfold
    · rintro (⟨x, hx, hxm⟩ | hs)
      · rcases List.mem_cons.mp hx with hhead | htail
        · subst hhead
          exact hsome (Or.inr (eloStep_mention_isSome kf init scores x s₁ m hs₁ hxm))
        · exact hsome (Or.inl ⟨x, htail, hxm⟩)
      · exact hsome (Or.inr (eloStep_dom_mono kf init scores r s₁ m hs₁ hs))

/-! ## Store operation lemmas -/

theorem setEvalMarker_model_responses (s : Store) (q : Nat) (a b : String) :
    (setEvalMarker s q a b).model_responses = s.model_responses := by
  unfold setEvalMarker; split <;> rfl

theorem setEvalMarker_evaluation_results (s : Store) (q : Nat) (a b : String) :
    (setEvalMarker s q a b).evaluation_results = s.evaluation_results := by
  unfold setEvalMarker; split <;> rfl

theorem setEvalMarker_response_progress (s : Store) (q : Nat) (a b : String) :
    (setEvalMarker s q a b).response_progress = s.response_progress := by
  unfold setEvalMarker; split <;> rfl

theorem setRespMarker_model_responses (s : Store) (q : Nat) (n : String) :
    (setRespMarker s q n).model_responses = s.model_responses := by
  unfold setRespMarker; split <;> rfl

theorem setRespMarker_evaluation_results (s : Store) (q : Nat) (n : String) :
    (setRespMarker s q n).evaluation_results = s.evaluation_results := by
  unfold setRespMarker; split <;> rfl

theorem setRespMarker_evaluation_progress (s : Store) (q : Nat) (n : String) :
    (setRespMarker s q n).evaluation_progress = s.evaluation_progress := by
  unfold setRespMarker; split <;> rfl

theorem hasRespMarker_setRespMarker_self (s : Store) (q : Nat) (n : String) :
    hasRespMarker (setRespMarker s q n) q n = true := by
  unfold setRespMarker
  split
  · assumption
  · unfold hasRespMarker
    simp [List.contains_eq_any_beq, List.any_append]

theorem hasRespMarker_setRespMarker_mono (s : Store) (q' : Nat) (n' : String) (q : Nat)
    (n : String) (h : hasRespMarker s q n = true) :
    hasRespMarker (setRespMarker s q' n') q n = true := by
  unfold setRespMarker
  split
  · exact h
  · unfold hasRespMarker at h ⊢
    simp only [List.contains_eq_any_beq, List.any_append] at h ⊢
    simp [h]

theorem hasRespMarker_insertResponse (s : Store) (n' : String) (q' : Nat) (t : String)
    (q : Nat) (n : String) :
    hasRespMarker (insertResponse s n' q' t) q n = hasRespMarker s q n := rfl

theorem hasRespMarker_setEvalMarker (s : Store) (q' : Nat) (a b : String) (q : Nat)
    (n : String) : hasRespMarker (setEvalMarker s q' a b) q n = hasRespMarker s q n := by
  unfold setEvalMarker
  split <;> rfl

theorem hasRespMarker_insertEvalResult (s : Store) (a b : String) (q' : Nat) (raw : String)
    (rel : Option (String × String)) (q : Nat) (n : String) :
    hasRespMarker (insertEvalResult s a b q' raw rel) q n = hasRespMarker s q n := rfl

theorem hasEvalMarker_setEvalMarker_self (s : Store) (q : Nat) (a b : String) :
    hasEvalMarker (setEvalMarker s q a b) q a b = true := by
  unfold setEvalMarker
  split
  · assumption
  · unfold hasEvalMarker
    simp [List.contains_eq_any_beq, List.any_append]

theorem hasEvalMarker_setEvalMarker_mono (s : Store) (q' : Nat) (a' b' : String) (q : Nat)
    (a b : String) (h : hasEvalMarker s q a b = true) :
    hasEvalMarker (setEvalMarker s q' a' b') q a b = true := by
  unfold setEvalMarker
  split
  · exact h
  · unfold hasEvalMarker at h ⊢
    simp only [List.contains_eq_any_beq, List.any_append] at h ⊢
    simp [h]

theorem hasEvalMarker_setEvalMarker_of_ne (s : Store) (q' : Nat) (a' b' : String) (q : Nat)
    (a b : String) (hne : ¬(q = q' ∧ a = a' ∧ b = b')) :
    hasEvalMarker (setEvalMarker s q' a' b') q a b = hasEvalMarker s q a b := by
  unfold setEvalMarker
  split
  · rfl
  · unfold hasEvalMarker
    simp only [List.contains_eq_any_beq, List.any_append]
    have : ((q, a, b) == (q', a', b')) = false := by
      simp only [beq_eq_false_iff_ne, ne_eq, Prod.mk.injEq, not_and]
      intro h1 h2
      exact fun h3 => hne ⟨h1, h2, h3⟩
    simp [this]

theorem hasEvalMarker_setRespMarker (s : Store) (q' : Nat) (n : String) (q : Nat)
    (a b : String) : hasEvalMarker (setRespMarker s q' n) q a b = hasEvalMarker s q a b := by
  unfold setRespMarker
  split <;> rfl

theorem hasEvalMarker_insertResponse (s : Store) (n : String) (q' : Nat) (t : String)
    (q : Nat) (a b : String) :
    hasEvalMarker (insertResponse s n q' t) q a b = hasEvalMarker s q a b := rfl

theorem hasEvalMarker_insertEvalResult (s : Store) (a' b' : String) (q' : Nat) (raw : String)
    (rel : Option (String × String)) (q : Nat) (a b : String) :
    hasEvalMarker (insertEvalResult s a' b' q' raw rel) q a b = hasEvalMarker s q a b := rfl

theorem lookupResponse_insertEvalResult (s : Store) (a b : String) (q' : Nat) (raw : String)
    (rel : Option (String × String)) (n : String) (q : Nat) :
    lookupResponse (insertEvalResult s a b q' raw rel) n q = lookupResponse s n q := rfl

theorem lookupResponse_setEvalMarker (s : Store) (q' : Nat) (a b : String) (n : String)
    (q : Nat) : lookupResponse (setEvalMarker s q' a b) n q = lookupResponse s n q := by
  unfold setEvalMarker
  split <;> rfl

theorem lookupResponse_setRespMarker (s : Store) (q' : Nat) (n' : String) (n : String)
    (q : Nat) : lookupResponse (setRespMarker s q' n') n q = lookupResponse s n q := by
  unfold setRespMarker
  split <;> rfl

theorem lookupResponse_insertResponse_self (s : Store) (n : String) (q : Nat) (t : String)
    (h : lookupResponse s n q = none) :
    lookupResponse (insertResponse s n q t) n q = some t := by
  unfold lookupResponse at h ⊢
  unfold insertResponse
  simp only [List.find?_append]
  cases hf : (s.model_responses.find? fun r => r.1 == n && r.2.1 == q) with
  | some r => simp [hf] at h
  | none => simp [hf, List.find?]

theorem lookupResponse_insertResponse_other (s : Store) (n' : String) (q' : Nat) (t : String)
    (n : String) (q : Nat) (hne : ¬(n = n' ∧ q = q')) :
    lookupResponse (insertResponse s n' q' t) n q = lookupResponse s n q := by
  unfold lookupResponse insertResponse
  simp only [List.find?_append]
  cases hf : (s.model_responses.find? fun r => r.1 == n && r.2.1 == q) with
  | some r => simp [hf]
  | none =>
    simp only [hf, Option.none_or]
    have : ((n', q', t).1 == n && (n', q', t).2.1 == q) = false := by
      simp only [Bool.and_eq_false_iff, beq_eq_false_iff_ne, ne_eq]
      by_cases h1 : n' = n
      · exact Or.inr (fun h2 => hne ⟨h1.symm, h2.symm⟩)
      · exact Or.inl h1
    simp [List.find?, this]

/-! ## Generic fold lemmas and a case analysis of one scheduler iteration -/

theorem foldE_nil {σ α : Type} (f : σ → α → Except Unit σ) (s : σ) :
    foldE f s [] = .ok s := rfl

theorem foldE_cons_inv {σ α : Type} (f : σ → α → Except Unit σ) (s : σ) (a : α)
    (l : List α) (s' : σ) (h : foldE f s (a :: l) = .ok s') :
    ∃ s₁, f s a = .ok s₁ ∧ foldE f s₁ l = .ok s' := by
  unfold foldE at h
  split at h
  · exact ⟨_, by assumption, h⟩
  · exact absurd h (by simp)

theorem foldE_cons_ok {σ α : Type} (f : σ → α → Except Unit σ) {s s₁ : σ} (a : α)
    (l : List α) (h : f s a = .ok s₁) : foldE f s (a :: l) = foldE f s₁ l := by
  show (match f s a with
    | .ok s' => foldE f s' l
    | .error e => .error e) = foldE f s₁ l
  rw [h]

theorem foldE_inv {σ α : Type} (f : σ → α → Except Unit σ) (P : σ → Prop)
    (hf : ∀ s a s', P s → f s a = .ok s' → P s') :
    ∀ (l : List α) (s s' : σ), P s → foldE f s l = .ok s' → P s' := by
  intro l
  induction l with
  | nil =>
    intro s s' hP h
    rw [foldE_nil] at h
    exact (Except.ok.inj h) ▸ hP
  | cons a t ih =>
    intro s s' hP h
    obtain ⟨s₁, hfa, hrest⟩ := foldE_cons_inv f s a t s' h
    exact ih s₁ s' (hf s a s₁ hP hfa) hrest

/-- The post-state of the success branch of one scheduler iteration. -/
def evalSuccessState (st : EvalSt) (qid : Nat) (a b raw : String) : EvalSt :=
  ⟨⟨setEvalMarker (setEvalMarker
        (insertEvalResult st.rs.store a b qid raw (relationOf a b raw)) qid a b) qid b a,
    st.rs.logs, st.rs.promptCalls, st.rs.evalCalls ++ [(a, b, qid)]⟩,
   st.results ++ [⟨a, b, raw, relationOf a b raw⟩]⟩

/-- Exhaustive case analysis of one successful (non-raising) iteration of the
pair loop: the iteration either skips (missing response or existing
completion marker, state unchanged), logs a capability-resolution failure
(only the log changes), or completes the pair (record, both markers, one
evaluator call, one result). -/
theorem evalStep_cases {qid : Nat} {question : String} {names : List String}
    {evaluator : ModelConfig} {mkPrompt : String → String → String → String}
    {rand : Nat → Bool} {available : String → Option String} {st : EvalSt}
    {item : Nat × Nat × Nat} {st' : EvalSt} (a b : String)
    (hp : presented names rand item = (a, b))
    (h : evalStep qid question names evaluator mkPrompt rand available st item = .ok st') :
    (st' = st ∧ (available a = none ∨ available b = none ∨
      hasEvalMarker st.rs.store qid a b = true)) ∨
    (evaluator = none ∧ hasEvalMarker st.rs.store qid a b = false ∧
      (available a).isSome ∧ (available b).isSome ∧
      st' = { st with rs :=
        { st.rs with logs := st.rs.logs ++ [.evalError a b qid] } }) ∨
    (∃ f respA respB raw,
      evaluator = some f ∧ available a = some respA ∧ available b = some respB ∧
      hasEvalMarker st.rs.store qid a b = false ∧
      f (mkPrompt question respA respB) = some raw ∧
      st' = evalSuccessState st qid a b raw) := by
  unfold evalStep at h
  rw [hp] at h
  simp only at h
  split at h
  · rename_i respA respB h1 h2
    by_cases hm : hasEvalMarker st.rs.store qid a b
    · rw [if_pos hm] at h
      exact Or.inl ⟨(Except.ok.inj h).symm, Or.inr (Or.inr hm)⟩
    · rw [if_neg hm] at h
      cases hev : evaluator with
      | none =>
        rw [hev] at h
        exact Or.inr (Or.inl ⟨rfl, by simpa using hm, by simp [h1], by simp [h2],
          (Except.ok.inj h).symm⟩)
      | some f =>
        rw [hev] at h
        simp only at h
        cases hraw : f (mkPrompt question respA respB) with
        | none =>
          rw [hraw] at h
          exact absurd h (by simp)
        | some raw =>
          rw [hraw] at h
          exact Or.inr (Or.inr ⟨f, respA, respB, raw, rfl, h1, h2, by simpa using hm,
            hraw, (Except.ok.inj h).symm⟩)
  · rename_i x y hno
    refine Or.inl ⟨(Except.ok.inj h).symm, ?_⟩
    cases h1 : available a with
    | none => exact Or.inl rfl
    | some respA =>
      cases h2 : available b with
      | none => exact Or.inr (Or.inl rfl)
      | some respB => exact (hno respA respB h1 h2).elim

/-- Selects the evaluator calls made for the unordered pair `{x, y}` on
question `qid`, in either presentation order. -/
def callFor (x y : String) (qid : Nat) (c : String × String × Nat) : Bool :=
  decide (c = (x, y, qid) ∨ c = (y, x, qid))

/-- Selects the persisted MatchRecords of the unordered pair `{x, y}` on
question `qid`, in either presentation order. -/
def rowFor (x y : String) (qid : Nat) (r : EvalRow) : Bool :=
  decide ((r.model_a = x ∧ r.model_b = y ∧ r.question_id = qid) ∨
    (r.model_a = y ∧ r.model_b = x ∧ r.question_id = qid))

theorem callFor_mk_false (x y a b : String) (qid : Nat)
    (h1 : ¬(a = x ∧ b = y)) (h2 : ¬(a = y ∧ b = x)) :
    callFor x y qid (a, b, qid) = false := by
  unfold callFor
  rw [decide_eq_false_iff_not]
  rintro (he | he) <;> rw [Prod.mk.injEq, Prod.mk.injEq] at he
  · exact h1 ⟨he.1, he.2.1⟩
  · exact h2 ⟨he.1, he.2.1⟩

theorem rowFor_mk_false (x y a b raw : String) (qid : Nat) (rel : Option (String × String))
    (h1 : ¬(a = x ∧ b = y)) (h2 : ¬(a = y ∧ b = x)) :
    rowFor x y qid ⟨a, b, qid, raw, rel⟩ = false := by
  unfold rowFor
  rw [decide_eq_false_iff_not]
  rintro (⟨ha, hb, -⟩ | ⟨ha, hb, -⟩)
  · exact h1 ⟨ha, hb⟩
  · exact h2 ⟨ha, hb⟩

/-- With an unresolvable evaluator capability, one iteration always succeeds,
changes no store state, makes no call, and logs the failure whenever the pair
was adjudicable and unmarked. -/
theorem evalStep_none_total (qid : Nat) (question : String) (names : List String)
    (mkPrompt : String → String → String → String) (rand : Nat → Bool)
    (available : String → Option String) (st : EvalSt) (item : Nat × Nat × Nat) :
    ∃ st₁, evalStep qid question names none mkPrompt rand available st item = .ok st₁ ∧
      st₁.rs.store = st.rs.store ∧ st₁.rs.evalCalls = st.rs.evalCalls ∧
      st₁.rs.promptCalls = st.rs.promptCalls ∧ st₁.results = st.results ∧
      (∀ e ∈ st.rs.logs, e ∈ st₁.rs.logs) ∧
      (∀ a b, presented names rand item = (a, b) →
        (available a).isSome → (available b).isSome →
        hasEvalMarker st.rs.store qid a b = false →
        LogEvent.evalError a b qid ∈ st₁.rs.logs) := by
  unfold evalStep
  cases h1 : available (presented names rand item).1 with
  | none =>
    refine ⟨st, ?_, rfl, rfl, rfl, rfl, fun e he => he, ?_⟩
    · cases available (presented names rand item).2 <;> rfl
    · intro a b hp hA hB _
      rw [(congrArg Prod.fst hp : (presented names rand item).1 = a)] at h1
      rw [h1] at hA
      exact absurd hA (by simp)
  | some respA =>
    cases h2 : available (presented names rand item).2 with
    | none =>
      refine ⟨st, rfl, rfl, rfl, rfl, rfl, fun e he => he, ?_⟩
      intro a b hp hA hB _
      rw [(congrArg Prod.snd hp : (presented names rand item).2 = b)] at h2
      rw [h2] at hB
      exact absurd hB (by simp)
    | some respB =>
      by_cases hm : hasEvalMarker st.rs.store qid (presented names rand item).1
          (presented names rand item).2
      · refine ⟨st, by simp [hm], rfl, rfl, rfl, rfl, fun e he => he, ?_⟩
        intro a b hp _ _ hmF
        rw [(congrArg Prod.fst hp : (presented names rand item).1 = a),
            (congrArg Prod.snd hp : (presented names rand item).2 = b)] at hm
        rw [hm] at hmF
        exact absurd hmF (by simp)
      · have hmf : hasEvalMarker st.rs.store qid (presented names rand item).1
            (presented names rand item).2 = false := by simpa using hm
        refine ⟨{ st with rs := { st.rs with logs := st.rs.logs ++
          [.evalError (presented names rand item).1 (presented names rand item).2 qid] } },
          by simp [hmf], rfl, rfl, rfl, rfl,
          fun e he => List.mem_append.mpr (Or.inl he), ?_⟩
        intro a b hp _ _ _
        rw [(congrArg Prod.fst hp : (presented names rand item).1 = a),
            (congrArg Prod.snd hp : (presented names rand item).2 = b)]
        exact List.mem_append.mpr (Or.inr (List.mem_singleton.mpr rfl))

/-- With an unresolvable evaluator capability the whole pair loop completes,
leaves the store, the calls and the results untouched, and logs one failure
per adjudicable unmarked pair. -/
theorem evalFold_none (qid : Nat) (question : String) (names : List String)
    (mkPrompt : String → String → String → String) (rand : Nat → Bool)
    (available : String → Option String) :
    ∀ (l : List (Nat × Nat × Nat)) (st : EvalSt),
      ∃ out, foldE (evalStep qid question names none mkPrompt rand available) st l =
          .ok out ∧
        out.rs.store = st.rs.store ∧ out.rs.evalCalls = st.rs.evalCalls ∧
        out.rs.promptCalls = st.rs.promptCalls ∧ out.results = st.results ∧
        (∀ e ∈ st.rs.logs, e ∈ out.rs.logs) ∧
        (∀ item ∈ l, ∀ a b, presented names rand item = (a, b) →
          (available a).isSome → (available b).isSome →
          hasEvalMarker st.rs.store qid a b = false →
          LogEvent.evalError a b qid ∈ out.rs.logs) := by
  intro l
  induction l with
  | nil =>
    intro st
    exact ⟨st, rfl, rfl, rfl, rfl, rfl, fun e he => he, fun item hitem => absurd hitem
      (List.not_mem_nil item)⟩
  | cons item t ih =>
    intro st
    obtain ⟨st₁, hstep, hstore₁, hcalls₁, hp₁, hres₁, hlog₁, hitem₁⟩ :=
      evalStep_none_total qid question names mkPrompt rand available st item
    obtain ⟨out, hfold, hstore₂, hcalls₂, hp₂, hres₂, hlog₂, hitem₂⟩ := ih st₁
    refine ⟨out, ?_, hstore₂.trans hstore₁, hcalls₂.trans hcalls₁, hp₂.trans hp₁,
      hres₂.trans hres₁, fun e he => hlog₂ e (hlog₁ e he), ?_⟩
    · unfold foldE
      rw [hstep]
      exact hfold
    · intro x hx a b hpres hA hB hmF
      rcases List.mem_cons.mp hx with hhead | htail
      · subst hhead
        exact hlog₂ _ (hitem₁ a b hpres hA hB hmF)
      · rw [← hstore₁] at hmF
        exact hitem₂ x htail a b hpres hA hB hmF

/-! ## Collector lemmas -/

/-- Cache hit: an existing row is returned and nothing happens. -/
theorem prompt_model_cached (rs : RunState) (name : String) (config : ModelConfig)
    (qid : Nat) (question : String) (r : String)
    (h : lookupResponse rs.store name qid = some r) :
    prompt_model rs name config qid question = (rs, name, some r) := by
  unfold prompt_model
  rw [h]

/-- Capability-resolution failure on a fresh key: log, return null, persist
nothing. -/
theorem prompt_model_resolution_failure (rs : RunState) (name : String) (qid : Nat)
    (question : String) (hfresh : lookupResponse rs.store name qid = none) :
    prompt_model rs name none qid question =
      ({ rs with logs := rs.logs ++ [.promptError name] }, name, none) := by
  unfold prompt_model
  rw [hfresh]

/-- Adapter exhausts its retries on a fresh key: the stringified marker
`"None"` is persisted, nothing is logged, null is returned. -/
theorem prompt_model_adapter_null (rs : RunState) (name : String) (f : Adapter) (qid : Nat)
    (question : String) (hfresh : lookupResponse rs.store name qid = none)
    (hnull : f question = none) :
    prompt_model rs name (some f) qid question =
      ({ rs with
          promptCalls := rs.promptCalls ++ [(name, qid)]
          store := insertResponse rs.store name qid "None" }, name, none) := by
  unfold prompt_model
  rw [hfresh]
  simp only [hnull, pyStr]

/-- Adapter success on a fresh key: the text is persisted and returned. -/
theorem prompt_model_adapter_some (rs : RunState) (name : String) (f : Adapter) (qid : Nat)
    (question : String) (t : String) (hfresh : lookupResponse rs.store name qid = none)
    (ht : f question = some t) :
    prompt_model rs name (some f) qid question =
      ({ rs with
          promptCalls := rs.promptCalls ++ [(name, qid)]
          store := insertResponse rs.store name qid t }, name, some t) := by
  unfold prompt_model
  rw [hfresh]
  simp only [ht, pyStr]

/-! ## Collection-phase lemmas -/

theorem hasRespMarker_congr {s s' : Store} (h : s.response_progress = s'.response_progress)
    (q : Nat) (n : String) : hasRespMarker s q n = hasRespMarker s' q n := by
  unfold hasRespMarker
  rw [h]

theorem hasEvalMarker_congr {s s' : Store}
    (h : s.evaluation_progress = s'.evaluation_progress) (q : Nat) (a b : String) :
    hasEvalMarker s q a b = hasEvalMarker s' q a b := by
  unfold hasEvalMarker
  rw [h]

theorem lookupResponse_congr {s s' : Store} (h : s.model_responses = s'.model_responses)
    (n : String) (q : Nat) : lookupResponse s n q = lookupResponse s' n q := by
  unfold lookupResponse
  rw [h]

theorem prompt_model_fst_name (rs : RunState) (name : String) (config : ModelConfig)
    (qid : Nat) (question : String) :
    (prompt_model rs name config qid question).2.1 = name := by
  unfold prompt_model
  cases lookupResponse rs.store name qid
  · cases config <;> rfl
  · rfl

theorem prompt_model_evaluation_results (rs : RunState) (name : String)
    (config : ModelConfig) (qid : Nat) (question : String) :
    (prompt_model rs name config qid question).1.store.evaluation_results =
      rs.store.evaluation_results := by
  unfold prompt_model
  cases lookupResponse rs.store name qid
  · cases config <;> rfl
  · rfl

theorem prompt_model_evaluation_progress (rs : RunState) (name : String)
    (config : ModelConfig) (qid : Nat) (question : String) :
    (prompt_model rs name config qid question).1.store.evaluation_progress =
      rs.store.evaluation_progress := by
  unfold prompt_model
  cases lookupResponse rs.store name qid
  · cases config <;> rfl
  · rfl

theorem prompt_model_response_progress (rs : RunState) (name : String)
    (config : ModelConfig) (qid : Nat) (question : String) :
    (prompt_model rs name config qid question).1.store.response_progress =
      rs.store.response_progress := by
  unfold prompt_model
  cases lookupResponse rs.store name qid
  · cases config <;> rfl
  · rfl

theorem prompt_model_lookup_other (rs : RunState) (name : String) (config : ModelConfig)
    (qid : Nat) (question : String) (n : String) (q : Nat) (hne : ¬(n = name ∧ q = qid)) :
    lookupResponse (prompt_model rs name config qid question).1.store n q =
      lookupResponse rs.store n q := by
  unfold prompt_model
  cases lookupResponse rs.store name qid
  · cases config
    · rfl
    · exact lookupResponse_insertResponse_other _ _ _ _ _ _ hne
  · rfl

theorem promptStep_evaluation_results (qid : Nat) (question : String)
    (acc : RunState × List (String × Option String)) (p : String × ModelConfig) :
    (promptStep qid question acc p).1.store.evaluation_results =
      acc.1.store.evaluation_results := by
  unfold promptStep
  split
  · rfl
  · simp only [setRespMarker_evaluation_results, prompt_model_evaluation_results]

theorem promptStep_evaluation_progress (qid : Nat) (question : String)
    (acc : RunState × List (String × Option String)) (p : String × ModelConfig) :
    (promptStep qid question acc p).1.store.evaluation_progress =
      acc.1.store.evaluation_progress := by
  unfold promptStep
  split
  · rfl
  · simp only [setRespMarker_evaluation_progress, prompt_model_evaluation_progress]

theorem promptStep_lookup_other (qid : Nat) (question : String)
    (acc : RunState × List (String × Option String)) (p : String × ModelConfig)
    (n : String) (q : Nat) (hq : ¬q = qid) :
    lookupResponse (promptStep qid question acc p).1.store n q =
      lookupResponse acc.1.store n q := by
  unfold promptStep
  split
  · rfl
  · simp only [lookupResponse_setRespMarker]
    exact prompt_model_lookup_other _ _ _ _ _ _ _ (fun hc => hq hc.2)

theorem promptStep_marker_mono (qid : Nat) (question : String)
    (acc : RunState × List (String × Option String)) (p : String × ModelConfig)
    (q : Nat) (n : String) (h : hasRespMarker acc.1.store q n = true) :
    hasRespMarker (promptStep qid question acc p).1.store q n = true := by
  unfold promptStep
  split
  · exact h
  · apply hasRespMarker_setRespMarker_mono
    rw [hasRespMarker_congr (prompt_model_response_progress acc.1 p.1 p.2 qid question) q n]
    exact h

theorem promptStep_sets_marker (qid : Nat) (question : String)
    (acc : RunState × List (String × Option String)) (p : String × ModelConfig) :
    hasRespMarker (promptStep qid question acc p).1.store qid p.1 = true := by
  unfold promptStep
  split
  · assumption
  · rw [prompt_model_fst_name]
    exact hasRespMarker_setRespMarker_self _ _ _

theorem promptFold_marker_mono (qid : Nat) (question : String) :
    ∀ (ps : List (String × ModelConfig)) (acc : RunState × List (String × Option String))
      (q : Nat) (n : String), hasRespMarker acc.1.store q n = true →
      hasRespMarker (List.foldl (promptStep qid question) acc ps).1.store q n = true := by
  intro ps
  induction ps with
  | nil => intro acc q n h; exact h
  | cons hd t ih =>
    intro acc q n h
    rw [List.foldl_cons]
    exact ih _ q n (promptStep_marker_mono qid question acc hd q n h)

theorem promptFold_markers_set (qid : Nat) (question : String) :
    ∀ (ps : List (String × ModelConfig)) (acc : RunState × List (String × Option String)),
      ∀ p ∈ ps,
      hasRespMarker (List.foldl (promptStep qid question) acc ps).1.store qid p.1 = true := by
  intro ps
  induction ps with
  | nil => intro acc p hp; exact absurd hp (List.not_mem_nil p)
  | cons hd t ih =>
    intro acc p hp
    rcases List.mem_cons.mp hp with he | ht
    · subst he
      rw [List.foldl_cons]
      exact promptFold_marker_mono qid question t _ qid p.1
        (promptStep_sets_marker qid question acc p)
    · rw [List.foldl_cons]
      exact ih _ p ht

theorem promptFold_identity (qid : Nat) (question : String) :
    ∀ (ps : List (String × ModelConfig)) (acc : RunState × List (String × Option String)),
      (∀ p ∈ ps, hasRespMarker acc.1.store qid p.1 = true) →
      List.foldl (promptStep qid question) acc ps = acc := by
  intro ps
  induction ps with
  | nil => intro acc _; rfl
  | cons hd t ih =>
    intro acc hall
    rw [List.foldl_cons]
    have hstep : promptStep qid question acc hd = acc := by
      unfold promptStep
      rw [if_pos (hall hd (by simp))]
    rw [hstep]
    exact ih acc (fun p hp => hall p (by simp [hp]))

theorem promptFold_evaluation_results (qid : Nat) (question : String) :
    ∀ (ps : List (String × ModelConfig)) (acc : RunState × List (String × Option String)),
      (List.foldl (promptStep qid question) acc ps).1.store.evaluation_results =
        acc.1.store.evaluation_results := by
  intro ps
  induction ps with
  | nil => intro acc; rfl
  | cons hd t ih =>
    intro acc
    rw [List.foldl_cons, ih, promptStep_evaluation_results]

theorem promptFold_evaluation_progress (qid : Nat) (question : String) :
    ∀ (ps : List (String × ModelConfig)) (acc : RunState × List (String × Option String)),
      (List.foldl (promptStep qid question) acc ps).1.store.evaluation_progress =
        acc.1.store.evaluation_progress := by
  intro ps
  induction ps with
  | nil => intro acc; rfl
  | cons hd t ih =>
    intro acc
    rw [List.foldl_cons, ih, promptStep_evaluation_progress]

theorem promptFold_lookup_other (qid : Nat) (question : String) :
    ∀ (ps : List (String × ModelConfig)) (acc : RunState × List (String × Option String))
      (n : String) (q : Nat), ¬q = qid →
      lookupResponse (List.foldl (promptStep qid question) acc ps).1.store n q =
        lookupResponse acc.1.store n q := by
  intro ps
  induction ps with
  | nil => intro acc n q _; rfl
  | cons hd t ih =>
    intro acc n q hq
    rw [List.foldl_cons, ih _ n q hq, promptStep_lookup_other qid question acc hd n q hq]

/-! ## Scheduler-phase preservation lemmas -/

theorem exists_mem_enumFrom {α : Type} :
    ∀ {l : List α} {x : α} (n : Nat), x ∈ l → ∃ k, (k, x) ∈ l.enumFrom n := by
  intro l
  induction l with
  | nil => intro x n h; exact absurd h (List.not_mem_nil x)
  | cons a t ih =>
    intro x n h
    rcases List.mem_cons.mp h with he | ht
    · exact ⟨n, by simp [he]⟩
    · obtain ⟨k, hk⟩ := ih (n + 1) ht
      exact ⟨k, by simp [List.enumFrom_cons, hk]⟩

theorem exists_mem_enum {α : Type} {l : List α} {x : α} (h : x ∈ l) :
    ∃ k, (k, x) ∈ l.enum :=
  exists_mem_enumFrom 0 h

theorem evaluate_responses_inv {rs : RunState} {qid : Nat} {question : String}
    {names : List String} {evaluator : ModelConfig}
    {mkPrompt : String → String → String → String} {rand : Nat → Bool}
    {out : RunState × List MatchResult}
    (h : evaluate_responses rs qid question names evaluator mkPrompt rand = .ok out) :
    ∃ st : EvalSt, foldE (evalStep qid question names evaluator mkPrompt rand
        (fun name => lookupResponse rs.store name qid)) ⟨rs, []⟩
        (pairList names.length).enum = .ok st ∧ out = (st.rs, st.results) := by
  unfold evaluate_responses at h
  split at h
  · exact ⟨_, by assumption, (Except.ok.inj h).symm⟩
  · exact absurd h (by simp)

theorem evalStep_model_responses {qid : Nat} {question : String} {names : List String}
    {evaluator : ModelConfig} {mkPrompt : String → String → String → String}
    {rand : Nat → Bool} {available : String → Option String} {st : EvalSt}
    {item : Nat × Nat × Nat} {st' : EvalSt}
    (h : evalStep qid question names evaluator mkPrompt rand available st item = .ok st') :
    st'.rs.store.model_responses = st.rs.store.model_responses := by
  rcases evalStep_cases (presented names rand item).1 (presented names rand item).2 rfl h
    with ⟨hs, _⟩ | ⟨_, _, _, _, hs⟩ | ⟨f, rA, rB, raw, _, _, _, _, _, hs⟩ <;> subst hs <;>
    simp [evalSuccessState, setEvalMarker_model_responses, insertEvalResult]

theorem evalStep_response_progress {qid : Nat} {question : String} {names : List String}
    {evaluator : ModelConfig} {mkPrompt : String → String → String → String}
    {rand : Nat → Bool} {available : String → Option String} {st : EvalSt}
    {item : Nat × Nat × Nat} {st' : EvalSt}
    (h : evalStep qid question names evaluator mkPrompt rand available st item = .ok st') :
    st'.rs.store.response_progress = st.rs.store.response_progress := by
  rcases evalStep_cases (presented names rand item).1 (presented names rand item).2 rfl h
    with ⟨hs, _⟩ | ⟨_, _, _, _, hs⟩ | ⟨f, rA, rB, raw, _, _, _, _, _, hs⟩ <;> subst hs <;>
    simp [evalSuccessState, setEvalMarker_response_progress, insertEvalResult]

theorem evalStep_promptCalls {qid : Nat} {question : String} {names : List String}
    {evaluator : ModelConfig} {mkPrompt : String → String → String → String}
    {rand : Nat → Bool} {available : String → Option String} {st : EvalSt}
    {item : Nat × Nat × Nat} {st' : EvalSt}
    (h : evalStep qid question names evaluator mkPrompt rand available st item = .ok st') :
    st'.rs.promptCalls = st.rs.promptCalls := by
  rcases evalStep_cases (presented names rand item).1 (presented names rand item).2 rfl h
    with ⟨hs, _⟩ | ⟨_, _, _, _, hs⟩ | ⟨f, rA, rB, raw, _, _, _, _, _, hs⟩ <;> subst hs <;>
    simp [evalSuccessState]

theorem evalStep_marker_mono {qid : Nat} {question : String} {names : List String}
    {evaluator : ModelConfig} {mkPrompt : String → String → String → String}
    {rand : Nat → Bool} {available : String → Option String} {st : EvalSt}
    {item : Nat × Nat × Nat} {st' : EvalSt}
    (h : evalStep qid question names evaluator mkPrompt rand available st item = .ok st')
    (q : Nat) (a b : String) (hm : hasEvalMarker st.rs.store q a b = true) :
    hasEvalMarker st'.rs.store q a b = true := by
  rcases evalStep_cases (presented names rand item).1 (presented names rand item).2 rfl h
    with ⟨hs, _⟩ | ⟨_, _, _, _, hs⟩ | ⟨f, rA, rB, raw, _, _, _, _, _, hs⟩ <;> subst hs
  · exact hm
  · exact hm
  · exact hasEvalMarker_setEvalMarker_mono _ _ _ _ _ _ _
      (hasEvalMarker_setEvalMarker_mono _ _ _ _ _ _ _ hm)

theorem evalFold_model_responses {qid : Nat} {question : String} {names : List String}
    {evaluator : ModelConfig} {mkPrompt : String → String → String → String}
    {rand : Nat → Bool} {available : String → Option String}
    {l : List (Nat × Nat × Nat)} {st out : EvalSt}
    (h : foldE (evalStep qid question names evaluator mkPrompt rand available) st l =
      .ok out) : out.rs.store.model_responses = st.rs.store.model_responses :=
  foldE_inv _ (fun s => s.rs.store.model_responses = st.rs.store.model_responses)
    (fun _ _ _ hP hstep => (evalStep_model_responses hstep).trans hP) l st out rfl h

theorem evalFold_response_progress {qid : Nat} {question : String} {names : List String}
    {evaluator : ModelConfig} {mkPrompt : String → String → String → String}
    {rand : Nat → Bool} {available : String → Option String}
    {l : List (Nat × Nat × Nat)} {st out : EvalSt}
    (h : foldE (evalStep qid question names evaluator mkPrompt rand available) st l =
      .ok out) : out.rs.store.response_progress = st.rs.store.response_progress :=
  foldE_inv _ (fun s => s.rs.store.response_progress = st.rs.store.response_progress)
    (fun _ _ _ hP hstep => (evalStep_response_progress hstep).trans hP) l st out rfl h

theorem evalFold_promptCalls {qid : Nat} {question : String} {names : List String}
    {evaluator : ModelConfig} {mkPrompt : String → String → String → String}
    {rand : Nat → Bool} {available : String → Option String}
    {l : List (Nat × Nat × Nat)} {st out : EvalSt}
    (h : foldE (evalStep qid question names evaluator mkPrompt rand available) st l =
      .ok out) : out.rs.promptCalls = st.rs.promptCalls :=
  foldE_inv _ (fun s => s.rs.promptCalls = st.rs.promptCalls)
    (fun _ _ _ hP hstep => (evalStep_promptCalls hstep).trans hP) l st out rfl h

theorem evalFold_marker_mono {qid : Nat} {question : String} {names : List String}
    {evaluator : ModelConfig} {mkPrompt : String → String → String → String}
    {rand : Nat → Bool} {available : String → Option String}
    {l : List (Nat × Nat × Nat)} {st out : EvalSt}
    (h : foldE (evalStep qid question names evaluator mkPrompt rand available) st l =
      .ok out) (q : Nat) (a b : String) (hm : hasEvalMarker st.rs.store q a b = true) :
    hasEvalMarker out.rs.store q a b = true :=
  foldE_inv _ (fun s => hasEvalMarker s.rs.store q a b = true)
    (fun _ _ _ hP hstep => evalStep_marker_mono hstep q a b hP) l st out hm h

/-! ## Symmetry of the match completion markers -/

/-- The reachable-store invariant behind resumability: completion markers
come in symmetric pairs, so a marker for one presentation order implies the
marker for the other. -/
def MarkersSymm (s : Store) : Prop :=
  ∀ q a b, hasEvalMarker s q a b = true → hasEvalMarker s q b a = true

theorem markersSymm_congr {s s' : Store}
    (h : s.evaluation_progress = s'.evaluation_progress) (hs : MarkersSymm s') :
    MarkersSymm s := by
  intro q a b hab
  rw [hasEvalMarker_congr h] at hab ⊢
  exact hs q a b hab

theorem markersSymm_setPair (s : Store) (qid : Nat) (a b : String) (hs : MarkersSymm s) :
    MarkersSymm (setEvalMarker (setEvalMarker s qid a b) qid b a) := by
  intro q x y hxy
  by_cases h3 : q = qid ∧ y = b ∧ x = a
  · obtain ⟨hq, hy, hx⟩ := h3
    subst hq; subst hy; subst hx
    exact hasEvalMarker_setEvalMarker_self _ _ _ _
  · by_cases h4 : q = qid ∧ y = a ∧ x = b
    · obtain ⟨hq, hy, hx⟩ := h4
      subst hq; subst hy; subst hx
      exact hasEvalMarker_setEvalMarker_mono _ _ _ _ _ _ _
        (hasEvalMarker_setEvalMarker_self _ _ _ _)
    · have h1 : ¬(q = qid ∧ x = a ∧ y = b) := fun ⟨hq, hx, hy⟩ => h3 ⟨hq, hy, hx⟩
      have h2 : ¬(q = qid ∧ x = b ∧ y = a) := fun ⟨hq, hx, hy⟩ => h4 ⟨hq, hy, hx⟩
      rw [hasEvalMarker_setEvalMarker_of_ne _ _ _ _ _ _ _ h2,
          hasEvalMarker_setEvalMarker_of_ne _ _ _ _ _ _ _ h1] at hxy
      rw [hasEvalMarker_setEvalMarker_of_ne _ _ _ _ _ _ _ h3,
          hasEvalMarker_setEvalMarker_of_ne _ _ _ _ _ _ _ h4]
      exact hs q x y hxy

theorem markersSymm_evalStep {qid : Nat} {question : String} {names : List String}
    {evaluator : ModelConfig} {mkPrompt : String → String → String → String}
    {rand : Nat → Bool} {available : String → Option String} {st : EvalSt}
    {item : Nat × Nat × Nat} {st' : EvalSt}
    (h : evalStep qid question names evaluator mkPrompt rand available st item = .ok st')
    (hs : MarkersSymm st.rs.store) : MarkersSymm st'.rs.store := by
  rcases evalStep_cases (presented names rand item).1 (presented names rand item).2 rfl h
    with ⟨hsub, _⟩ | ⟨_, _, _, _, hsub⟩ | ⟨f, rA, rB, raw, _, _, _, _, _, hsub⟩ <;> subst hsub
  · exact hs
  · exact hs
  · exact markersSymm_setPair _ qid (presented names rand item).1
      (presented names rand item).2 (fun q x y hxy => hs q x y hxy)

theorem markersSymm_evalFold {qid : Nat} {question : String} {names : List String}
    {evaluator : ModelConfig} {mkPrompt : String → String → String → String}
    {rand : Nat → Bool} {available : String → Option String}
    {l : List (Nat × Nat × Nat)} {st out : EvalSt}
    (h : foldE (evalStep qid question names evaluator mkPrompt rand available) st l =
      .ok out) (hs : MarkersSymm st.rs.store) : MarkersSymm out.rs.store :=
  foldE_inv _ (fun s => MarkersSymm s.rs.store)
    (fun _ _ _ hP hstep => markersSymm_evalStep hstep hP) l st out hs h

/-! ## Question-completeness and the no-op property of a rerun -/

/-- Every pair of the question whose two responses are present carries both
completion markers: the state of a question after a successful run. -/
def PairsDone (s : Store) (qid : Nat) (names : List String) : Prop :=
  ∀ i j, (i, j) ∈ pairList names.length →
    (lookupResponse s (names.getD i "") qid).isSome = true →
    (lookupResponse s (names.getD j "") qid).isSome = true →
    hasEvalMarker s qid (names.getD i "") (names.getD j "") = true ∧
    hasEvalMarker s qid (names.getD j "") (names.getD i "") = true

theorem presented_true {names : List String} {rand : Nat → Bool} {x : Nat × Nat × Nat}
    (hr : rand x.1 = true) :
    presented names rand x = (names.getD x.2.1 "", names.getD x.2.2 "") := by
  unfold presented
  rw [hr]
  simp

theorem presented_false {names : List String} {rand : Nat → Bool} {x : Nat × Nat × Nat}
    (hr : rand x.1 = false) :
    presented names rand x = (names.getD x.2.2 "", names.getD x.2.1 "") := by
  unfold presented
  rw [hr]
  simp

/-- On a question whose adjudicable pairs are all marked, every iteration is
a skip, whatever the draw, the evaluator and the prompt. -/
theorem evalStep_skip_of_done (qid : Nat) (question : String) (names : List String)
    (evaluator : ModelConfig) (mkPrompt : String → String → String → String)
    (rand : Nat → Bool) (available : String → Option String) (st : EvalSt)
    (x : Nat × Nat × Nat)
    (havail : ∀ n, available n = lookupResponse st.rs.store n qid)
    (hdone : PairsDone st.rs.store qid names) (hx : x.2 ∈ pairList names.length) :
    evalStep qid question names evaluator mkPrompt rand available st x = .ok st := by
  unfold evalStep
  cases h1 : available (presented names rand x).1 with
  | none => cases available (presented names rand x).2 <;> rfl
  | some rA =>
    cases h2 : available (presented names rand x).2 with
    | none => rfl
    | some rB =>
      have hm : hasEvalMarker st.rs.store qid (presented names rand x).1
          (presented names rand x).2 = true := by
        cases hr : rand x.1 with
        | true =>
          rw [presented_true hr] at h1 h2 ⊢
          rw [havail] at h1 h2
          have h1' : lookupResponse st.rs.store (names.getD x.2.1 "") qid = some rA := h1
          have h2' : lookupResponse st.rs.store (names.getD x.2.2 "") qid = some rB := h2
          exact (hdone x.2.1 x.2.2 hx (by rw [h1']; rfl) (by rw [h2']; rfl)).1
        | false =>
          rw [presented_false hr] at h1 h2 ⊢
          rw [havail] at h1 h2
          have h1' : lookupResponse st.rs.store (names.getD x.2.2 "") qid = some rA := h1
          have h2' : lookupResponse st.rs.store (names.getD x.2.1 "") qid = some rB := h2
          exact (hdone x.2.1 x.2.2 hx (by rw [h2']; rfl) (by rw [h1']; rfl)).2
      simp [hm]

theorem evalFold_done (qid : Nat) (question : String) (names : List String)
    (evaluator : ModelConfig) (mkPrompt : String → String → String → String)
    (rand : Nat → Bool) (available : String → Option String) (st : EvalSt)
    (havail : ∀ n, available n = lookupResponse st.rs.store n qid)
    (hdone : PairsDone st.rs.store qid names) :
    ∀ l : List (Nat × Nat × Nat), (∀ x ∈ l, x.2 ∈ pairList names.length) →
      foldE (evalStep qid question names evaluator mkPrompt rand available) st l =
        .ok st := by
  intro l
  induction l with
  | nil => intro _; rfl
  | cons x t ih =>
    intro hmem
    unfold foldE
    rw [evalStep_skip_of_done qid question names evaluator mkPrompt rand available st x
      havail hdone (hmem x (by simp))]
    exact ih (fun y hy => hmem y (by simp [hy]))

/-- A fully-collected, fully-adjudicated question is a strict no-op for
`process_question`, for any evaluator and any random draws. -/
theorem process_question_noop (rs : RunState) (qid : Nat) (question : String)
    (participants : List (String × ModelConfig)) (evaluator : ModelConfig)
    (mkPrompt : String → String → String → String) (rand : Nat → Bool)
    (hmarks : ∀ p ∈ participants, hasRespMarker rs.store qid p.1 = true)
    (hdone : PairsDone rs.store qid (participants.map Prod.fst)) :
    process_question rs qid question participants evaluator mkPrompt rand =
      .ok (rs, ⟨qid, question, [], []⟩) := by
  have hpp : promptPhase rs qid question participants = (rs, []) :=
    promptFold_identity qid question participants (rs, []) hmarks
  have hev : evaluate_responses rs qid question (participants.map Prod.fst) evaluator
      mkPrompt rand = .ok (rs, []) := by
    unfold evaluate_responses
    rw [evalFold_done qid question (participants.map Prod.fst) evaluator mkPrompt rand _
      ⟨rs, []⟩ (fun n => rfl) hdone _ (fun x hx => List.snd_mem_of_mem_enum hx)]
  unfold process_question
  rw [hpp]
  simp only [hev]

/-- Postcondition of the pair loop with a resolvable, never-raising
evaluator: marker symmetry is preserved and every pair that was adjudicable
under the loop's availability snapshot ends with both completion markers. -/
theorem evalFold_some_post (qid : Nat) (question : String) (names : List String)
    (f : Adapter) (mkPrompt : String → String → String → String) (rand : Nat → Bool)
    (available : String → Option String) :
    ∀ (l : List (Nat × Nat × Nat)) (st out : EvalSt),
      MarkersSymm st.rs.store →
      foldE (evalStep qid question names (some f) mkPrompt rand available) st l =
        .ok out →
      MarkersSymm out.rs.store ∧
      ∀ x ∈ l, ∀ a b, presented names rand x = (a, b) →
        (available a).isSome = true → (available b).isSome = true →
        hasEvalMarker out.rs.store qid a b = true ∧
        hasEvalMarker out.rs.store qid b a = true := by
  intro l
  induction l with
  | nil =>
    intro st out hsymm h
    rw [foldE_nil] at h
    rw [← Except.ok.inj h]
    exact ⟨hsymm, fun x hx => absurd hx (List.not_mem_nil x)⟩
  | cons x t ih =>
    intro st out hsymm h
    obtain ⟨st₁, hstep, hrest⟩ := foldE_cons_inv _ st x t out h
    obtain ⟨hsymm', hitems⟩ := ih st₁ out (markersSymm_evalStep hstep hsymm) hrest
    refine ⟨hsymm', ?_⟩
    intro y hy a b hp hA hB
    rcases List.mem_cons.mp hy with he | ht
    · subst he
      rcases evalStep_cases a b hp hstep with
        ⟨hs, hskip⟩ | ⟨hnone, _⟩ | ⟨f', rA, rB, raw, _, _, _, _, _, hs⟩
      · rcases hskip with hA' | hB' | hm
        · rw [hA'] at hA
          exact absurd hA (by simp)
        · rw [hB'] at hB
          exact absurd hB (by simp)
        · subst hs
          have hba := hsymm qid a b hm
          exact ⟨evalFold_marker_mono hrest qid a b hm,
            evalFold_marker_mono hrest qid b a hba⟩
      · exact absurd hnone (by simp)
      · subst hs
        have hab : hasEvalMarker (evalSuccessState st qid a b raw).rs.store qid a b = true := by
          simp only [evalSuccessState]
          exact hasEvalMarker_setEvalMarker_mono _ _ _ _ _ _ _
            (hasEvalMarker_setEvalMarker_self _ _ _ _)
        have hba : hasEvalMarker (evalSuccessState st qid a b raw).rs.store qid b a = true := by
          simp only [evalSuccessState]
          exact hasEvalMarker_setEvalMarker_self _ _ _ _
        exact ⟨evalFold_marker_mono hrest qid a b hab, evalFold_marker_mono hrest qid b a hba⟩
    · exact hitems y ht a b hp hA hB

theorem promptPhase_evaluation_progress (rs : RunState) (qid : Nat) (question : String)
    (participants : List (String × ModelConfig)) :
    (promptPhase rs qid question participants).1.store.evaluation_progress =
      rs.store.evaluation_progress :=
  promptFold_evaluation_progress qid question participants (rs, [])

theorem promptPhase_marker_mono (rs : RunState) (qid : Nat) (question : String)
    (participants : List (String × ModelConfig)) (q : Nat) (n : String)
    (h : hasRespMarker rs.store q n = true) :
    hasRespMarker (promptPhase rs qid question participants).1.store q n = true :=
  promptFold_marker_mono qid question participants (rs, []) q n h

theorem promptPhase_markers_set (rs : RunState) (qid : Nat) (question : String)
    (participants : List (String × ModelConfig)) :
    ∀ p ∈ participants,
      hasRespMarker (promptPhase rs qid question participants).1.store qid p.1 = true :=
  promptFold_markers_set qid question participants (rs, [])

theorem promptPhase_lookup_other (rs : RunState) (qid : Nat) (question : String)
    (participants : List (String × ModelConfig)) (n : String) (q : Nat) (hq : ¬q = qid) :
    lookupResponse (promptPhase rs qid question participants).1.store n q =
      lookupResponse rs.store n q :=
  promptFold_lookup_other qid question participants (rs, []) n q hq

theorem process_question_inv {rs : RunState} {qid : Nat} {question : String}
    {participants : List (String × ModelConfig)} {evaluator : ModelConfig}
    {mkPrompt : String → String → String → String} {rand : Nat → Bool}
    {rs' : RunState} {rec : QuestionRecord}
    (h : process_question rs qid question participants evaluator mkPrompt rand =
      .ok (rs', rec)) :
    ∃ st : EvalSt,
      foldE (evalStep qid question (participants.map Prod.fst) evaluator mkPrompt rand
          (fun name =>
            lookupResponse (promptPhase rs qid question participants).1.store name qid))
        ⟨(promptPhase rs qid question participants).1, []⟩
        (pairList (participants.map Prod.fst).length).enum = .ok st ∧
      rs' = st.rs := by
  unfold process_question at h
  split at h
  · rename_i rsx resx heq
    obtain ⟨st, hfold, hout⟩ := evaluate_responses_inv heq
    refine ⟨st, hfold, ?_⟩
    have h1 : rsx = rs' := congrArg Prod.fst (Except.ok.inj h)
    have h2 : rsx = st.rs := congrArg Prod.fst hout
    rw [← h1, h2]
  · exact absurd h (by simp)

theorem process_question_marks {rs : RunState} {qid : Nat} {question : String}
    {participants : List (String × ModelConfig)} {evaluator : ModelConfig}
    {mkPrompt : String → String → String → String} {rand : Nat → Bool}
    {rs' : RunState} {rec : QuestionRecord}
    (h : process_question rs qid question participants evaluator mkPrompt rand =
      .ok (rs', rec)) :
    ∀ p ∈ participants, hasRespMarker rs'.store qid p.1 = true := by
  obtain ⟨st, hfold, hrs⟩ := process_question_inv h
  subst hrs
  intro p hp
  rw [hasRespMarker_congr (evalFold_response_progress hfold) qid p.1]
  exact promptPhase_markers_set rs qid question participants p hp

theorem process_question_preserves {rs : RunState} {qid : Nat} {question : String}
    {participants : List (String × ModelConfig)} {evaluator : ModelConfig}
    {mkPrompt : String → String → String → String} {rand : Nat → Bool}
    {rs' : RunState} {rec : QuestionRecord}
    (h : process_question rs qid question participants evaluator mkPrompt rand =
      .ok (rs', rec)) :
    (∀ q n, hasRespMarker rs.store q n = true → hasRespMarker rs'.store q n = true) ∧
    (∀ q a b, hasEvalMarker rs.store q a b = true →
      hasEvalMarker rs'.store q a b = true) ∧
    (∀ n q, ¬q = qid → lookupResponse rs'.store n q = lookupResponse rs.store n q) ∧
    (MarkersSymm rs.store → MarkersSymm rs'.store) := by
  obtain ⟨st, hfold, hrs⟩ := process_question_inv h
  subst hrs
  refine ⟨?_, ?_, ?_, ?_⟩
  · intro q n hm
    rw [hasRespMarker_congr (evalFold_response_progress hfold) q n]
    exact promptPhase_marker_mono rs qid question participants q n hm
  · intro q a b hm
    refine evalFold_marker_mono hfold q a b ?_
    rw [hasEvalMarker_congr
      (promptPhase_evaluation_progress rs qid question participants) q a b]
    exact hm
  · intro n q hq
    rw [lookupResponse_congr (evalFold_model_responses hfold) n q]
    exact promptPhase_lookup_other rs qid question participants n q hq
  · intro hsymm
    exact markersSymm_evalFold hfold
      (markersSymm_congr (promptPhase_evaluation_progress rs qid question participants)
        hsymm)

theorem process_question_preserves_pairsDone {rs : RunState} {qid' : Nat}
    {question : String} {participants : List (String × ModelConfig)}
    {evaluator : ModelConfig} {mkPrompt : String → String → String → String}
    {rand : Nat → Bool} {rs' : RunState} {rec : QuestionRecord} {q : Nat}
    {names : List String}
    (h : process_question rs qid' question participants evaluator mkPrompt rand =
      .ok (rs', rec))
    (hq : ¬q = qid') (hd : PairsDone rs.store q names) : PairsDone rs'.store q names := by
  obtain ⟨hresp, heval, hlook, hsymm⟩ := process_question_preserves h
  intro i j hij hA hB
  rw [hlook _ q hq] at hA hB
  obtain ⟨h1, h2⟩ := hd i j hij hA hB
  exact ⟨heval q _ _ h1, heval q _ _ h2⟩

theorem process_question_post_some {rs : RunState} {qid : Nat} {question : String}
    {participants : List (String × ModelConfig)} {f : Adapter}
    {mkPrompt : String → String → String → String} {rand : Nat → Bool}
    {rs' : RunState} {rec : QuestionRecord}
    (h : process_question rs qid question participants (some f) mkPrompt rand =
      .ok (rs', rec)) (hsymm : MarkersSymm rs.store) :
    PairsDone rs'.store qid (participants.map Prod.fst) ∧ MarkersSymm rs'.store := by
  obtain ⟨st, hfold, hrs⟩ := process_question_inv h
  subst hrs
  have hsymmpp : MarkersSymm (promptPhase rs qid question participants).1.store :=
    markersSymm_congr (promptPhase_evaluation_progress rs qid question participants) hsymm
  obtain ⟨hsymm', hpost⟩ := evalFold_some_post qid question (participants.map Prod.fst) f
    mkPrompt rand _ _ _ _ hsymmpp hfold
  refine ⟨?_, hsymm'⟩
  intro i j hij hA hB
  rw [lookupResponse_congr (evalFold_model_responses hfold)] at hA hB
  obtain ⟨k, hk⟩ := exists_mem_enum hij
  cases hr : rand k with
  | true =>
    exact hpost (k, (i, j)) hk
      ((participants.map Prod.fst).getD i "") ((participants.map Prod.fst).getD j "")
      (presented_true hr) hA hB
  | false =>
    obtain ⟨h1, h2⟩ := hpost (k, (i, j)) hk
      ((participants.map Prod.fst).getD j "") ((participants.map Prod.fst).getD i "")
      (presented_false hr) hB hA
    exact ⟨h2, h1⟩

theorem pipelineStep_inv {participants : List (String × ModelConfig)}
    {evaluator : ModelConfig} {mkPrompt : String → String → String → String}
    {rand : Nat → Nat → Bool} {acc out : RunState × List QuestionRecord}
    {item : Nat × String}
    (h : pipelineStep participants evaluator mkPrompt rand acc item = .ok out) :
    ∃ rs' rec, process_question acc.1 (item.1 + 1) item.2 participants evaluator mkPrompt
      (rand (item.1 + 1)) = .ok (rs', rec) ∧ out = (rs', acc.2 ++ [rec]) := by
  unfold pipelineStep at h
  split at h
  · rename_i rs' rec heq
    exact ⟨rs', rec, heq, (Except.ok.inj h).symm⟩
  · exact absurd h (by simp)

theorem pipelineFold_preserves (participants : List (String × ModelConfig))
    (evaluator : ModelConfig) (mkPrompt : String → String → String → String)
    (rand : Nat → Nat → Bool) :
    ∀ (l : List (Nat × String)) (acc out : RunState × List QuestionRecord),
      foldE (pipelineStep participants evaluator mkPrompt rand) acc l = .ok out →
      (∀ q n, hasRespMarker acc.1.store q n = true →
        hasRespMarker out.1.store q n = true) ∧
      (∀ q a b, hasEvalMarker acc.1.store q a b = true →
        hasEvalMarker out.1.store q a b = true) ∧
      (∀ n q, (∀ item ∈ l, ¬q = item.1 + 1) →
        lookupResponse out.1.store n q = lookupResponse acc.1.store n q) ∧
      (MarkersSymm acc.1.store → MarkersSymm out.1.store) := by
  intro l
  induction l with
  | nil =>
    intro acc out h
    rw [foldE_nil] at h
    rw [← Except.ok.inj h]
    exact ⟨fun _ _ hm => hm, fun _ _ _ hm => hm, fun _ _ _ => rfl, fun hs => hs⟩
  | cons item t ih =>
    intro acc out h
    obtain ⟨st₁, hstep, hrest⟩ := foldE_cons_inv _ acc item t out h
    obtain ⟨rs₁, rec₁, hpq, hout₁⟩ := pipelineStep_inv hstep
    subst hout₁
    obtain ⟨hq1, hq2, hq3, hq4⟩ := process_question_preserves hpq
    obtain ⟨ht1, ht2, ht3, ht4⟩ := ih (rs₁, acc.2 ++ [rec₁]) out hrest
    refine ⟨fun q n hm => ht1 q n (hq1 q n hm), fun q a b hm => ht2 q a b (hq2 q a b hm),
      ?_, fun hs => ht4 (hq4 hs)⟩
    intro n q hq
    rw [ht3 n q (fun x hx => hq x (by simp [hx])), hq3 n q (hq item (by simp))]

theorem pipelineFold_preserves_pairsDone (participants : List (String × ModelConfig))
    (evaluator : ModelConfig) (mkPrompt : String → String → String → String)
    (rand : Nat → Nat → Bool) (l : List (Nat × String))
    (acc out : RunState × List QuestionRecord) (q : Nat) (names : List String)
    (h : foldE (pipelineStep participants evaluator mkPrompt rand) acc l = .ok out)
    (hq : ∀ item ∈ l, ¬q = item.1 + 1)
    (hd : PairsDone acc.1.store q names) : PairsDone out.1.store q names := by
  obtain ⟨h1, h2, h3, h4⟩ := pipelineFold_preserves participants evaluator mkPrompt rand
    l acc out h
  intro i j hij hA hB
  rw [h3 _ q hq] at hA hB
  obtain ⟨hm1, hm2⟩ := hd i j hij hA hB
  exact ⟨h2 q _ _ hm1, h2 q _ _ hm2⟩

theorem pipelineFold_marks (participants : List (String × ModelConfig))
    (evaluator : ModelConfig) (mkPrompt : String → String → String → String)
    (rand : Nat → Nat → Bool) :
    ∀ (l : List (Nat × String)) (acc out : RunState × List QuestionRecord),
      foldE (pipelineStep participants evaluator mkPrompt rand) acc l = .ok out →
      ∀ item ∈ l, ∀ p ∈ participants,
        hasRespMarker out.1.store (item.1 + 1) p.1 = true := by
  intro l
  induction l with
  | nil => intro acc out _ item hitem; exact absurd hitem (List.not_mem_nil item)
  | cons hd t ih =>
    intro acc out h item hitem p hp
    obtain ⟨st₁, hstep, hrest⟩ := foldE_cons_inv _ acc hd t out h
    obtain ⟨rs₁, rec₁, hpq, hout₁⟩ := pipelineStep_inv hstep
    subst hout₁
    rcases List.mem_cons.mp hitem with he | ht
    · subst he
      exact (pipelineFold_preserves participants evaluator mkPrompt rand t _ out hrest).1
        _ _ (process_question_marks hpq p hp)
    · exact ih _ out hrest item ht p hp

theorem pipelineFold_post_some (participants : List (String × ModelConfig)) (f : Adapter)
    (mkPrompt : String → String → String → String) (rand : Nat → Nat → Bool) :
    ∀ (l : List (Nat × String)) (acc out : RunState × List QuestionRecord),
      foldE (pipelineStep participants (some f) mkPrompt rand) acc l = .ok out →
      MarkersSymm acc.1.store → (l.map Prod.fst).Nodup →
      MarkersSymm out.1.store ∧
      ∀ item ∈ l, PairsDone out.1.store (item.1 + 1) (participants.map Prod.fst) := by
  intro l
  induction l with
  | nil =>
    intro acc out h hsymm _
    rw [foldE_nil] at h
    rw [← Except.ok.inj h]
    exact ⟨hsymm, fun item hitem => absurd hitem (List.not_mem_nil item)⟩
  | cons hd t ih =>
    intro acc out h hsymm hnodup
    obtain ⟨st₁, hstep, hrest⟩ := foldE_cons_inv _ acc hd t out h
    obtain ⟨rs₁, rec₁, hpq, hout₁⟩ := pipelineStep_inv hstep
    subst hout₁
    obtain ⟨hdone₁, hsymm₁⟩ := process_question_post_some hpq hsymm
    have hnodup' : (hd.1 :: t.map Prod.fst).Nodup := by simpa using hnodup
    obtain ⟨hhd, htl⟩ := List.nodup_cons.mp hnodup'
    obtain ⟨hsymm', hrest'⟩ := ih _ out hrest hsymm₁ htl
    refine ⟨hsymm', ?_⟩
    intro item hitem
    rcases List.mem_cons.mp hitem with he | ht
    · subst he
      refine pipelineFold_preserves_pairsDone participants (some f) mkPrompt rand t _
        out (item.1 + 1) _ hrest ?_ hdone₁
      intro x hx he
      have hne : item.1 ≠ x.1 := fun hc => hhd (hc ▸ List.mem_map.mpr ⟨x, hx, rfl⟩)
      exact hne (Nat.succ_injective he)
    · exact hrest' item ht

theorem pipelineFold_noop_some (participants : List (String × ModelConfig)) (f : Adapter)
    (mkPrompt : String → String → String → String) (rand2 : Nat → Nat → Bool) :
    ∀ (l : List (Nat × String)) (acc : RunState × List QuestionRecord),
      (∀ item ∈ l,
        (∀ p ∈ participants, hasRespMarker acc.1.store (item.1 + 1) p.1 = true) ∧
        PairsDone acc.1.store (item.1 + 1) (participants.map Prod.fst)) →
      ∃ recs, foldE (pipelineStep participants (some f) mkPrompt rand2) acc l =
        .ok (acc.1, acc.2 ++ recs) := by
  intro l
  induction l with
  | nil => intro acc _; exact ⟨[], by simp [foldE_nil]⟩
  | cons hd t ih =>
    intro acc hfacts
    have hnoop := process_question_noop acc.1 (hd.1 + 1) hd.2 participants (some f)
      mkPrompt (rand2 (hd.1 + 1)) (hfacts hd (by simp)).1 (hfacts hd (by simp)).2
    obtain ⟨recs, hrecs⟩ := ih (acc.1, acc.2 ++ [⟨hd.1 + 1, hd.2, [], []⟩])
      (fun item hitem => hfacts item (by simp [hitem]))
    refine ⟨⟨hd.1 + 1, hd.2, [], []⟩ :: recs, ?_⟩
    have hstep : pipelineStep participants (some f) mkPrompt rand2 acc hd =
        .ok (acc.1, acc.2 ++ [⟨hd.1 + 1, hd.2, [], []⟩]) := by
      unfold pipelineStep
      rw [hnoop]
    rw [foldE_cons_ok _ hd t hstep, hrecs]
    simp

theorem process_question_none_logsOnly (rs : RunState) (qid : Nat) (question : String)
    (participants : List (String × ModelConfig))
    (mkPrompt : String → String → String → String) (rand : Nat → Bool)
    (hmarks : ∀ p ∈ participants, hasRespMarker rs.store qid p.1 = true) :
    ∃ rs' rec, process_question rs qid question participants none mkPrompt rand =
        .ok (rs', rec) ∧
      rs'.store = rs.store ∧ rs'.promptCalls = rs.promptCalls ∧
      rs'.evalCalls = rs.evalCalls := by
  have hpp : promptPhase rs qid question participants = (rs, []) :=
    promptFold_identity qid question participants (rs, []) hmarks
  obtain ⟨st, hfold, hstore, hcalls, hpc, hres, _, _⟩ := evalFold_none qid question
    (participants.map Prod.fst) mkPrompt rand
    (fun name => lookupResponse rs.store name qid)
    (pairList (participants.map Prod.fst).length).enum ⟨rs, []⟩
  refine ⟨st.rs, ⟨qid, question, [], st.results⟩, ?_, hstore, hpc, hcalls⟩
  unfold process_question
  rw [hpp]
  have hev : evaluate_responses rs qid question (participants.map Prod.fst) none
      mkPrompt rand = .ok (st.rs, st.results) := by
    unfold evaluate_responses
    rw [hfold]
  simp only [hev]

theorem pipelineFold_noop_none (participants : List (String × ModelConfig))
    (mkPrompt : String → String → String → String) (rand2 : Nat → Nat → Bool) :
    ∀ (l : List (Nat × String)) (acc : RunState × List QuestionRecord),
      (∀ item ∈ l, ∀ p ∈ participants,
        hasRespMarker acc.1.store (item.1 + 1) p.1 = true) →
      ∃ out, foldE (pipelineStep participants none mkPrompt rand2) acc l = .ok out ∧
        out.1.store = acc.1.store ∧ out.1.promptCalls = acc.1.promptCalls ∧
        out.1.evalCalls = acc.1.evalCalls := by
  intro l
  induction l with
  | nil => intro acc _; exact ⟨acc, foldE_nil _ _, rfl, rfl, rfl⟩
  | cons hd t ih =>
    intro acc hmarks
    obtain ⟨rs₁, rec₁, hpq, hstore₁, hpc₁, hec₁⟩ := process_question_none_logsOnly acc.1
      (hd.1 + 1) hd.2 participants mkPrompt (rand2 (hd.1 + 1))
      (fun p hp => hmarks hd (by simp) p hp)
    obtain ⟨out, hout, hstore₂, hpc₂, hec₂⟩ := ih (rs₁, acc.2 ++ [rec₁])
      (fun item hitem p hp => by
        have hpe : rs₁.store.response_progress = acc.1.store.response_progress := by
          rw [hstore₁]
        rw [hasRespMarker_congr hpe (item.1 + 1) p.1]
        exact hmarks item (by simp [hitem]) p hp)
    refine ⟨out, ?_, hstore₂.trans hstore₁, hpc₂.trans hpc₁, hec₂.trans hec₁⟩
    have hstep : pipelineStep participants none mkPrompt rand2 acc hd =
        .ok (rs₁, acc.2 ++ [rec₁]) := by
      unfold pipelineStep
      rw [hpq]
    rw [foldE_cons_ok _ hd t hstep]
    exact hout

/-! ## Claim theorems -/

/-- Claim C1: for every evaluator free-text response, the verdict is computed
from the last `<answer>...</answer>` match (case-insensitive): its content is
trimmed and upper-cased, token `A` makes the slot-A model the winner, token
`B` the slot-B model, any other token gives a null verdict, and so does a
response with no match.  In particular `<answer>B</answer>` followed by
`<answer>a</answer>` yields the slot-A model as winner, and `<answer>C</answer>`
or a delimiter-free response yields a null verdict. -/
theorem c1_verdict_extraction :
    (∀ (model_a model_b : String) (s : String),
      relationOf model_a model_b s =
        match (findAnswers s.toList).getLast? with
        | none => none
        | some content =>
          if pyUpper (pyStrip content) = ['A'] then some (model_a, model_b)
          else if pyUpper (pyStrip content) = ['B'] then some (model_b, model_a)
          else none) ∧
    relationOf "X" "Y" "<answer>B</answer> then <answer>a</answer>" = some ("X", "Y") ∧
    relationOf "X" "Y" "<answer>C</answer>" = none ∧
    relationOf "X" "Y" "no delimiter" = none := by
  refine ⟨?_, rfl, rfl, rfl⟩
  intro model_a model_b s
  unfold relationOf answerOf
  cases h : (findAnswers s.toList).getLast? <;> simp [h]

/-- Claim C3: the Rating Reducer enters every model of a record at the
initial score before examining the verdict; a record with a null verdict
changes no rating; a record with a verdict `(winner, loser)` over its pair
updates exactly by the spec's formula `E_winner = 1/(1 + 10^((R_loser -
R_winner)/400))`, `E_loser = 1 - E_winner`, `R_winner += K*(1 - E_winner)`,
`R_loser += K*(0 - E_loser)`; and a single win of X over Y from the default
1000/1000 with K = 32 gives exactly 1016 and 984. -/
theorem c3_rating_update :
    (∀ (k_factor initial_score : ℝ) (scores : List (String × ℝ)) (a b winner loser : String),
      a ≠ b → (winner = a ∧ loser = b) ∨ (winner = b ∧ loser = a) →
      ∃ rw rl,
        dictGet? (insertDefault (insertDefault scores a initial_score) b initial_score)
          winner = some rw ∧
        dictGet? (insertDefault (insertDefault scores a initial_score) b initial_score)
          loser = some rl ∧
        eloStep k_factor initial_score scores (a, b, some (winner, loser)) =
          some (eloUpdateSpec k_factor
            (insertDefault (insertDefault scores a initial_score) b initial_score)
            winner loser rw rl)) ∧
    (∀ (k_factor initial_score : ℝ) (scores : List (String × ℝ)) (a b : String),
      eloStep k_factor initial_score scores (a, b, none) =
        some (insertDefault (insertDefault scores a initial_score) b initial_score)) ∧
    calculate_elo_scores [("X", "Y", some ("X", "Y"))] = some [("X", 1016), ("Y", 984)] := by
  refine ⟨fun kf init scores a b w l hab hwl => eloStep_eq_spec kf init scores a b w l hab hwl,
    fun kf init scores a b => eloStep_none kf init scores a b, ?_⟩
  have he : (((1000 : ℝ) - 1000) / 400) = 0 := by norm_num
  have hxy : ("X" : String) ≠ "Y" := by decide
  norm_num [calculate_elo_scores, foldO, eloStep, insertDefault, dictGet?, dictSet, he,
    Real.rpow_zero, hxy]

/-- Witness for C3 at a concrete input: two fresh models and a verdict
naming the presented pair. -/
theorem c3_rating_update_witness :
    ∃ rw rl,
      dictGet? (insertDefault (insertDefault [] "X" (1000 : ℝ)) "Y" 1000) "X" = some rw ∧
      dictGet? (insertDefault (insertDefault [] "X" (1000 : ℝ)) "Y" 1000) "Y" = some rl ∧
      eloStep 32 1000 [] ("X", "Y", some ("X", "Y")) =
        some (eloUpdateSpec 32 (insertDefault (insertDefault [] "X" (1000 : ℝ)) "Y" 1000)
          "X" "Y" rw rl) :=
  c3_rating_update.1 32 1000 [] "X" "Y" "X" "Y" (by decide) (Or.inl ⟨rfl, rfl⟩)

/-- Counterexample to claim C2 as stated: when the named capability cannot be
resolved, the Collector does NOT persist a null response — it persists
nothing at all for the key.  From the empty store, a resolution failure for
model `X` on question 1 returns null and logs, but the `model_responses`
table stays empty and a lookup of the key still misses. -/
theorem c2_counterexample :
    prompt_model ⟨⟨[], [], [], []⟩, [], [], []⟩ "X" none 1 "q" =
      (⟨⟨[], [], [], []⟩, [.promptError "X"], [], []⟩, "X", none) ∧
    lookupResponse (prompt_model ⟨⟨[], [], [], []⟩, [], [], []⟩ "X" none 1 "q").1.store
      "X" 1 = none :=
  ⟨rfl, rfl⟩

/-- Claim C2 (amended): for a (model, question) pair with no existing
ModelResponse, when the named capability cannot be resolved the Collector
logs the failure, persists nothing and returns null; when the adapter
resolves but returns null after its internal retries, the Collector persists
the stringified marker `"None"` for the key (without logging) and returns
null. -/
theorem c2_collector_failure (rs : RunState) (name : String) (qid : Nat) (question : String)
    (hfresh : lookupResponse rs.store name qid = none) :
    prompt_model rs name none qid question =
      ({ rs with logs := rs.logs ++ [.promptError name] }, name, none) ∧
    ∀ f : Adapter, f question = none →
      prompt_model rs name (some f) qid question =
        ({ rs with
            promptCalls := rs.promptCalls ++ [(name, qid)]
            store := insertResponse rs.store name qid "None" }, name, none) :=
  ⟨prompt_model_resolution_failure rs name qid question hfresh,
   fun f hf => prompt_model_adapter_null rs name f qid question hfresh hf⟩

/-- Witness for C2 (amended) at concrete inputs. -/
theorem c2_collector_failure_witness :
    prompt_model ⟨⟨[], [], [], []⟩, [], [], []⟩ "Y" none 2 "q" =
      (⟨⟨[], [], [], []⟩, [.promptError "Y"], [], []⟩, "Y", none) ∧
    prompt_model ⟨⟨[], [], [], []⟩, [], [], []⟩ "Y" (some fun _ => none) 2 "q" =
      (⟨⟨[("Y", 2, "None")], [], [], []⟩, [], [("Y", 2)], []⟩, "Y", none) :=
  ⟨(c2_collector_failure ⟨⟨[], [], [], []⟩, [], [], []⟩ "Y" 2 "q" rfl).1,
   (c2_collector_failure ⟨⟨[], [], [], []⟩, [], [], []⟩ "Y" 2 "q" rfl).2 (fun _ => none) rfl⟩

/-- Counterexample to claim C5 as stated: model `X`'s collection fails (the
adapter returns null after its retries), so `X` has no response *content* —
yet the scheduler does not skip the pair: the persisted row holds the
stringified marker `"None"`, which counts as an available response, the
evaluator is invoked once, and a MatchRecord is persisted for the pair. -/
theorem c5_counterexample :
    process_question ⟨⟨[], [], [], []⟩, [], [], []⟩ 1 "q"
        [("X", some fun _ => none), ("Y", some fun _ => some "hi")]
        (some fun _ => some "<answer>A</answer>") (fun q _ _ => q) (fun _ => true) =
      .ok (⟨⟨[("X", 1, "None"), ("Y", 1, "hi")],
             [⟨"X", "Y", 1, "<answer>A</answer>", some ("X", "Y")⟩],
             [(1, "X"), (1, "Y")],
             [(1, "X", "Y"), (1, "Y", "X")]⟩,
            [], [("X", 1), ("Y", 1)], [("X", "Y", 1)]⟩,
           ⟨1, "q", [("X", none), ("Y", some "hi")],
            [⟨"X", "Y", "<answer>A</answer>", some ("X", "Y")⟩]⟩) := rfl

/-- Claim C5 (amended): the scheduler skips a pair exactly when either model
has no persisted response **row** for the question (collection never
attempted, or capability resolution failed so nothing was written): if `x`
has no row, a completed run makes no evaluator call involving `x` and
persists no MatchRecord involving `x`.  A row whose content is the
stringified failure marker `"None"` counts as available and does not cause a
skip. -/
theorem c5_skip_missing_row (rs : RunState) (qid : Nat) (question : String)
    (names : List String) (evaluator : ModelConfig)
    (mkPrompt : String → String → String → String) (rand : Nat → Bool) (x : String)
    (out : RunState × List MatchResult)
    (hx : lookupResponse rs.store x qid = none)
    (hok : evaluate_responses rs qid question names evaluator mkPrompt rand = .ok out) :
    (∀ c ∈ out.1.evalCalls, c ∉ rs.evalCalls → ¬c.1 = x ∧ ¬c.2.1 = x) ∧
    (∀ r ∈ out.1.store.evaluation_results, r ∉ rs.store.evaluation_results →
      ¬r.model_a = x ∧ ¬r.model_b = x) := by
  unfold evaluate_responses at hok
  split at hok
  · rename_i st heq
    have hP := foldE_inv
      (evalStep qid question names evaluator mkPrompt rand
        (fun name => lookupResponse rs.store name qid))
      (fun st : EvalSt =>
        (∀ c ∈ st.rs.evalCalls, c ∈ rs.evalCalls ∨ (¬c.1 = x ∧ ¬c.2.1 = x)) ∧
        (∀ r ∈ st.rs.store.evaluation_results,
          r ∈ rs.store.evaluation_results ∨ (¬r.model_a = x ∧ ¬r.model_b = x)))
      ?step _ ⟨rs, []⟩ st ⟨fun c hc => Or.inl hc, fun r hr => Or.inl hr⟩ heq
    case step =>
      intro s item s' hPs hstep
      rcases evalStep_cases (presented names rand item).1 (presented names rand item).2
          rfl hstep with
        ⟨hs, _⟩ | ⟨_, _, _, _, hs⟩ | ⟨f, respA, respB, raw, _, ha, hb, _, _, hs⟩
      · exact hs ▸ hPs
      · subst hs
        exact hPs
      · subst hs
        have hax : ¬(presented names rand item).1 = x := fun he => by
          rw [he, hx] at ha
          exact Option.noConfusion ha
        have hbx : ¬(presented names rand item).2 = x := fun he => by
          rw [he, hx] at hb
          exact Option.noConfusion hb
        constructor
        · intro c hc
          rcases List.mem_append.mp hc with hold | hnew
          · exact hPs.1 c hold
          · rw [List.mem_singleton.mp hnew]
            exact Or.inr ⟨hax, hbx⟩
        · intro r hr
          simp only [evalSuccessState, setEvalMarker_evaluation_results] at hr
          rcases List.mem_append.mp hr with hold | hnew
          · exact hPs.2 r hold
          · rw [List.mem_singleton.mp hnew]
            exact Or.inr ⟨hax, hbx⟩
    rw [← Except.ok.inj hok]
    exact ⟨fun c hc hnotin => (hP.1 c hc).resolve_left hnotin,
      fun r hr hnotin => (hP.2 r hr).resolve_left hnotin⟩
  · exact absurd hok (by simp)

/-- Witness for C5 (amended): a store where `X` has no row; the only pair is
skipped, so the run completes with no calls and no records. -/
theorem c5_skip_missing_row_witness :
    (∀ c ∈ ([] : List (String × String × Nat)), c ∉ ([] : List (String × String × Nat)) →
      ¬c.1 = "X" ∧ ¬c.2.1 = "X") ∧
    (∀ r ∈ ([] : List EvalRow), r ∉ ([] : List EvalRow) →
      ¬r.model_a = "X" ∧ ¬r.model_b = "X") :=
  c5_skip_missing_row ⟨⟨[("Y", 1, "hi")], [], [], []⟩, [], [], []⟩ 1 "q" ["X", "Y"]
    (some fun _ => some "<answer>A</answer>") (fun q _ _ => q) (fun _ => true) "X"
    ⟨⟨⟨[("Y", 1, "hi")], [], [], []⟩, [], [], []⟩, []⟩ rfl rfl

/-- Claim C4: a completed unordered pair is never re-adjudicated.  First
conjunct: when both completion markers of `{x, y}` are already set, a
completed run makes no evaluator call for the pair, adds no MatchRecord for
it (in either order), and both markers survive — so a rerun skips the pair
regardless of which presentation order its random draw produces.  Second
conjunct: every MatchRecord a run adds has, on completion, completion
markers persisted for both orderings of its pair. -/
theorem c4_pair_adjudicated_once :
    (∀ (rs : RunState) (qid : Nat) (question : String) (names : List String)
        (evaluator : ModelConfig) (mkPrompt : String → String → String → String)
        (rand : Nat → Bool) (x y : String) (out : RunState × List MatchResult),
      hasEvalMarker rs.store qid x y = true → hasEvalMarker rs.store qid y x = true →
      evaluate_responses rs qid question names evaluator mkPrompt rand = .ok out →
      out.1.evalCalls.filter (callFor x y qid) = rs.evalCalls.filter (callFor x y qid) ∧
      out.1.store.evaluation_results.filter (rowFor x y qid) =
        rs.store.evaluation_results.filter (rowFor x y qid) ∧
      hasEvalMarker out.1.store qid x y = true ∧
      hasEvalMarker out.1.store qid y x = true) ∧
    (∀ (rs : RunState) (qid : Nat) (question : String) (names : List String)
        (evaluator : ModelConfig) (mkPrompt : String → String → String → String)
        (rand : Nat → Bool) (out : RunState × List MatchResult),
      evaluate_responses rs qid question names evaluator mkPrompt rand = .ok out →
      ∃ newRows, out.1.store.evaluation_results =
          rs.store.evaluation_results ++ newRows ∧
        ∀ r ∈ newRows,
          hasEvalMarker out.1.store r.question_id r.model_a r.model_b = true ∧
          hasEvalMarker out.1.store r.question_id r.model_b r.model_a = true) := by
  constructor
  · intro rs qid question names evaluator mkPrompt rand x y out hxy hyx hok
    unfold evaluate_responses at hok
    split at hok
    · rename_i st heq
      have hP := foldE_inv
        (evalStep qid question names evaluator mkPrompt rand
          (fun name => lookupResponse rs.store name qid))
        (fun st : EvalSt =>
          hasEvalMarker st.rs.store qid x y = true ∧
          hasEvalMarker st.rs.store qid y x = true ∧
          st.rs.evalCalls.filter (callFor x y qid) = rs.evalCalls.filter (callFor x y qid) ∧
          st.rs.store.evaluation_results.filter (rowFor x y qid) =
            rs.store.evaluation_results.filter (rowFor x y qid))
        ?step _ ⟨rs, []⟩ st ⟨hxy, hyx, rfl, rfl⟩ heq
      case step =>
        intro s item s' hPs hstep
        rcases evalStep_cases (presented names rand item).1 (presented names rand item).2
            rfl hstep with
          ⟨hs, _⟩ | ⟨_, _, _, _, hs⟩ | ⟨f, respA, respB, raw, _, ha, hb, hmF, _, hs⟩
        · exact hs ▸ hPs
        · subst hs
          exact hPs
        · subst hs
          have h1 : ¬((presented names rand item).1 = x ∧
              (presented names rand item).2 = y) := by
            rintro ⟨he1, he2⟩
            rw [he1, he2, hPs.1] at hmF
            exact Bool.true_eq_false ▸ hmF
          have h2 : ¬((presented names rand item).1 = y ∧
              (presented names rand item).2 = x) := by
            rintro ⟨he1, he2⟩
            rw [he1, he2, hPs.2.1] at hmF
            exact Bool.true_eq_false ▸ hmF
          refine ⟨?_, ?_, ?_, ?_⟩
          · exact hasEvalMarker_setEvalMarker_mono _ _ _ _ _ _ _
              (hasEvalMarker_setEvalMarker_mono _ _ _ _ _ _ _ hPs.1)
          · exact hasEvalMarker_setEvalMarker_mono _ _ _ _ _ _ _
              (hasEvalMarker_setEvalMarker_mono _ _ _ _ _ _ _ hPs.2.1)
          · simp only [evalSuccessState, List.filter_append]
            rw [hPs.2.2.1]
            simp [List.filter, callFor_mk_false x y _ _ qid h1 h2]
          · simp only [evalSuccessState, setEvalMarker_evaluation_results,
              insertEvalResult, List.filter_append]
            rw [hPs.2.2.2]
            simp [List.filter, rowFor_mk_false x y _ _ raw qid _ h1 h2]
      rw [← Except.ok.inj hok]
      exact ⟨hP.2.2.1, hP.2.2.2, hP.1, hP.2.1⟩
    · exact absurd hok (by simp)
  · intro rs qid question names evaluator mkPrompt rand out hok
    unfold evaluate_responses at hok
    split at hok
    · rename_i st heq
      have hP := foldE_inv
        (evalStep qid question names evaluator mkPrompt rand
          (fun name => lookupResponse rs.store name qid))
        (fun st : EvalSt =>
          ∃ newRows, st.rs.store.evaluation_results =
              rs.store.evaluation_results ++ newRows ∧
            ∀ r ∈ newRows,
              hasEvalMarker st.rs.store r.question_id r.model_a r.model_b = true ∧
              hasEvalMarker st.rs.store r.question_id r.model_b r.model_a = true)
        ?step _ ⟨rs, []⟩ st ⟨[], by simp, fun r hr => absurd hr (List.not_mem_nil r)⟩ heq
      case step =>
        intro s item s' hPs hstep
        obtain ⟨newRows, hrows, hmarks⟩ := hPs
        rcases evalStep_cases (presented names rand item).1 (presented names rand item).2
            rfl hstep with
          ⟨hs, _⟩ | ⟨_, _, _, _, hs⟩ | ⟨f, respA, respB, raw, _, ha, hb, hmF, _, hs⟩
        · exact hs ▸ ⟨newRows, hrows, hmarks⟩
        · subst hs
          exact ⟨newRows, hrows, hmarks⟩
        · subst hs
          refine ⟨newRows ++ [⟨(presented names rand item).1,
            (presented names rand item).2, qid, raw,
            relationOf (presented names rand item).1 (presented names rand item).2 raw⟩],
            ?_, ?_⟩
          · simp only [evalSuccessState, setEvalMarker_evaluation_results,
              insertEvalResult, hrows, List.append_assoc]
          · intro r hr
            rcases List.mem_append.mp hr with hold | hnew
            · obtain ⟨hm1, hm2⟩ := hmarks r hold
              exact ⟨hasEvalMarker_setEvalMarker_mono _ _ _ _ _ _ _
                  (hasEvalMarker_setEvalMarker_mono _ _ _ _ _ _ _ hm1),
                hasEvalMarker_setEvalMarker_mono _ _ _ _ _ _ _
                  (hasEvalMarker_setEvalMarker_mono _ _ _ _ _ _ _ hm2)⟩
            · rw [List.mem_singleton.mp hnew]
              exact ⟨hasEvalMarker_setEvalMarker_mono _ _ _ _ _ _ _
                  (hasEvalMarker_setEvalMarker_self _ _ _ _),
                hasEvalMarker_setEvalMarker_self _ _ _ _⟩
      rw [← Except.ok.inj hok]
      exact hP
    · exact absurd hok (by simp)

/-- Witness for C4: a store whose only state is the two markers of the pair;
the single pair (whose responses are missing) is skipped and everything is
unchanged. -/
theorem c4_pair_adjudicated_once_witness :
    ([] : List (String × String × Nat)).filter (callFor "X" "Y" 1) =
      ([] : List (String × String × Nat)).filter (callFor "X" "Y" 1) ∧
    ([] : List EvalRow).filter (rowFor "X" "Y" 1) =
      ([] : List EvalRow).filter (rowFor "X" "Y" 1) ∧
    hasEvalMarker ⟨[], [], [], [(1, "X", "Y"), (1, "Y", "X")]⟩ 1 "X" "Y" = true ∧
    hasEvalMarker ⟨[], [], [], [(1, "X", "Y"), (1, "Y", "X")]⟩ 1 "Y" "X" = true :=
  c4_pair_adjudicated_once.1 ⟨⟨[], [], [], [(1, "X", "Y"), (1, "Y", "X")]⟩, [], [], []⟩
    1 "q" ["X", "Y"] none (fun q _ _ => q) (fun _ => true) "X" "Y"
    ⟨⟨⟨[], [], [], [(1, "X", "Y"), (1, "Y", "X")]⟩, [], [], []⟩, []⟩
    (by decide) (by decide) rfl

/-- Claim C6: when the evaluator capability cannot be resolved (the only
evaluation failure the adapters can produce besides returning null — every
adapter's call is wrapped in a catch-all and never raises), the run is not
aborted: the loop completes over every pair, each adjudicable unmarked pair
is logged, and no MatchRecord, completion marker or any other store state is
written, so every failed pair stays eligible for re-adjudication. -/
theorem c6_capability_failure :
    (∀ (rs : RunState) (qid : Nat) (question : String) (names : List String)
        (mkPrompt : String → String → String → String) (rand : Nat → Bool),
      ∃ out, evaluate_responses rs qid question names none mkPrompt rand = .ok out) ∧
    (∀ (rs : RunState) (qid : Nat) (question : String) (names : List String)
        (mkPrompt : String → String → String → String) (rand : Nat → Bool)
        (out : RunState × List MatchResult),
      evaluate_responses rs qid question names none mkPrompt rand = .ok out →
      out.1.store = rs.store ∧ out.1.evalCalls = rs.evalCalls ∧
      out.1.promptCalls = rs.promptCalls ∧ out.2 = [] ∧
      (∀ e ∈ rs.logs, e ∈ out.1.logs) ∧
      (∀ item ∈ (pairList names.length).enum, ∀ a b,
        presented names rand item = (a, b) →
        (lookupResponse rs.store a qid).isSome →
        (lookupResponse rs.store b qid).isSome →
        hasEvalMarker rs.store qid a b = false →
        LogEvent.evalError a b qid ∈ out.1.logs)) := by
  constructor
  · intro rs qid question names mkPrompt rand
    obtain ⟨st, hfold, _⟩ := evalFold_none qid question names mkPrompt rand
      (fun name => lookupResponse rs.store name qid) (pairList names.length).enum ⟨rs, []⟩
    exact ⟨(st.rs, st.results), by unfold evaluate_responses; rw [hfold]⟩
  · intro rs qid question names mkPrompt rand out hok
    unfold evaluate_responses at hok
    obtain ⟨st, hfold, hstore, hcalls, hpc, hres, hlog, hitem⟩ := evalFold_none qid question
      names mkPrompt rand (fun name => lookupResponse rs.store name qid)
      (pairList names.length).enum ⟨rs, []⟩
    rw [hfold] at hok
    rw [← Except.ok.inj hok]
    exact ⟨hstore, hcalls, hpc, hres, hlog, hitem⟩

/-- Witness for C6: two models with responses and no markers; the run with an
unresolvable evaluator logs the failure for the presented pair. -/
theorem c6_capability_failure_witness :
    LogEvent.evalError "X" "Y" 1 ∈ [LogEvent.evalError "X" "Y" 1] :=
  (c6_capability_failure.2 ⟨⟨[("X", 1, "rx"), ("Y", 1, "ry")], [], [], []⟩, [], [], []⟩
      1 "q" ["X", "Y"] (fun q _ _ => q) (fun _ => true)
      ⟨⟨⟨[("X", 1, "rx"), ("Y", 1, "ry")], [], [], []⟩,
        [LogEvent.evalError "X" "Y" 1], [], []⟩, []⟩ rfl).2.2.2.2.2
    (0, 0, 1) (by decide) "X" "Y" rfl (by decide) (by decide) rfl

/-- Claim C7: rerunning the pipeline against the final store of a completed
run is a no-op on the persisted store.  First conjunct: a collection with an
existing ModelResponse returns the cached row with no state change at all
(in particular the adapter is not invoked).  Second conjunct: from any store
whose match markers are presentation-symmetric (an invariant of every store
the program writes), if a full run completes, then a second full run with
arbitrary fresh random draws also completes, leaves the store exactly as the
first run left it (hence no duplicate rows), invokes no participant adapter
and makes no evaluator call. -/
theorem c7_rerun_noop :
    (∀ (rs : RunState) (name : String) (config : ModelConfig) (qid : Nat)
        (question : String) (r : String),
      lookupResponse rs.store name qid = some r →
      prompt_model rs name config qid question = (rs, name, some r)) ∧
    (∀ (rs : RunState) (questions : List String)
        (participants : List (String × ModelConfig)) (evaluator : ModelConfig)
        (mkPrompt : String → String → String → String) (rand1 rand2 : Nat → Nat → Bool)
        (out1 : RunState × List QuestionRecord),
      MarkersSymm rs.store →
      runPipeline rs questions participants evaluator mkPrompt rand1 = .ok out1 →
      ∃ out2, runPipeline out1.1 questions participants evaluator mkPrompt rand2 =
          .ok out2 ∧
        out2.1.store = out1.1.store ∧ out2.1.promptCalls = out1.1.promptCalls ∧
        out2.1.evalCalls = out1.1.evalCalls) := by
  refine ⟨fun rs name config qid question r h =>
    prompt_model_cached rs name config qid question r h, ?_⟩
  intro rs questions participants evaluator mkPrompt rand1 rand2 out1 hsymm hok
  unfold runPipeline at hok ⊢
  have hmarks := pipelineFold_marks participants evaluator mkPrompt rand1
    questions.enum (rs, []) out1 hok
  cases evaluator with
  | none =>
    exact pipelineFold_noop_none participants mkPrompt rand2 questions.enum (out1.1, [])
      (fun item hitem p hp => hmarks item hitem p hp)
  | some f =>
    have hnodup : (questions.enum.map Prod.fst).Nodup := by
      rw [List.enum_map_fst]
      exact List.nodup_range _
    obtain ⟨hsymm', hdones⟩ := pipelineFold_post_some participants f mkPrompt rand1
      questions.enum (rs, []) out1 hok hsymm hnodup
    obtain ⟨recs, hrecs⟩ := pipelineFold_noop_some participants f mkPrompt rand2
      questions.enum (out1.1, [])
      (fun item hitem => ⟨fun p hp => hmarks item hitem p hp, hdones item hitem⟩)
    exact ⟨(out1.1, [] ++ recs), hrecs, rfl, rfl, rfl⟩

/-- Witness for C7: one model, one question, a run from the empty store, then
a rerun with flipped draws; the rerun leaves the store, the adapter-call log
and the evaluator-call log untouched. -/
theorem c7_rerun_noop_witness :
    ∃ out2, runPipeline ⟨⟨[("X", 1, "hi")], [], [(1, "X")], []⟩, [], [("X", 1)], []⟩
        ["q"] [("X", some fun _ => some "hi")] (some fun _ => some "z") (fun _ _ _ => "p")
        (fun _ _ => false) = .ok out2 ∧
      out2.1.store = (⟨[("X", 1, "hi")], [], [(1, "X")], []⟩ : Store) ∧
      out2.1.promptCalls = [("X", 1)] ∧
      out2.1.evalCalls = ([] : List (String × String × Nat)) :=
  c7_rerun_noop.2 ⟨⟨[], [], [], []⟩, [], [], []⟩ ["q"] [("X", some fun _ => some "hi")]
    (some fun _ => some "z") (fun _ _ _ => "p") (fun _ _ => true) (fun _ _ => false)
    (⟨⟨[("X", 1, "hi")], [], [(1, "X")], []⟩, [], [("X", 1)], []⟩,
     [⟨1, "q", [("X", some "hi")], []⟩])
    (fun _ _ _ h => Bool.noConfusion h) rfl

/-- Claim C8: with 3 participants, 1 question, all three responses already in
the store, and an evaluator that always answers `<answer>A</answer>`: the
pairs are enumerated in input order (M1,M2), (M1,M3), (M2,M3); whatever the
three random draws, exactly 3 MatchRecords are persisted, each naming the
model presented in slot A as winner; exactly 3 response completion markers
and 6 match completion markers (both orderings per pair) are set; the
evaluator is invoked exactly 3 times and no participant adapter at all. -/
theorem c8_three_models_one_question :
    ∀ b0 b1 b2 : Bool,
      process_question
        ⟨⟨[("M1", 1, "r1"), ("M2", 1, "r2"), ("M3", 1, "r3")], [], [], []⟩, [], [], []⟩
        1 "q"
        [("M1", some fun _ => some "z"), ("M2", some fun _ => some "z"),
         ("M3", some fun _ => some "z")]
        (some fun _ => some "<answer>A</answer>") (fun q _ _ => q)
        (fun k => [b0, b1, b2].getD k false) =
      .ok (⟨⟨[("M1", 1, "r1"), ("M2", 1, "r2"), ("M3", 1, "r3")],
             [⟨if b0 then "M1" else "M2", if b0 then "M2" else "M1", 1,
               "<answer>A</answer>",
               some (if b0 then "M1" else "M2", if b0 then "M2" else "M1")⟩,
              ⟨if b1 then "M1" else "M3", if b1 then "M3" else "M1", 1,
               "<answer>A</answer>",
               some (if b1 then "M1" else "M3", if b1 then "M3" else "M1")⟩,
              ⟨if b2 then "M2" else "M3", if b2 then "M3" else "M2", 1,
               "<answer>A</answer>",
               some (if b2 then "M2" else "M3", if b2 then "M3" else "M2")⟩],
             [(1, "M1"), (1, "M2"), (1, "M3")],
             [(1, if b0 then "M1" else "M2", if b0 then "M2" else "M1"),
              (1, if b0 then "M2" else "M1", if b0 then "M1" else "M2"),
              (1, if b1 then "M1" else "M3", if b1 then "M3" else "M1"),
              (1, if b1 then "M3" else "M1", if b1 then "M1" else "M3"),
              (1, if b2 then "M2" else "M3", if b2 then "M3" else "M2"),
              (1, if b2 then "M3" else "M2", if b2 then "M2" else "M3")]⟩,
            [], [],
            [(if b0 then "M1" else "M2", if b0 then "M2" else "M1", 1),
             (if b1 then "M1" else "M3", if b1 then "M3" else "M1", 1),
             (if b2 then "M2" else "M3", if b2 then "M3" else "M2", 1)]⟩,
           ⟨1, "q", [("M1", some "r1"), ("M2", some "r2"), ("M3", some "r3")],
            [⟨if b0 then "M1" else "M2", if b0 then "M2" else "M1",
              "<answer>A</answer>",
              some (if b0 then "M1" else "M2", if b0 then "M2" else "M1")⟩,
             ⟨if b1 then "M1" else "M3", if b1 then "M3" else "M1",
              "<answer>A</answer>",
              some (if b1 then "M1" else "M3", if b1 then "M3" else "M1")⟩,
             ⟨if b2 then "M2" else "M3", if b2 then "M3" else "M2",
              "<answer>A</answer>",
              some (if b2 then "M2" else "M3", if b2 then "M3" else "M2")⟩]⟩) := by
  intro b0 b1 b2
  cases b0 <;> cases b1 <;> cases b2 <;> rfl

/-- Claim C9: every collection that completes sets the response completion
marker — unconditionally, so also when the response is null (adapter failure
or unresolvable capability) — and therefore a repeated collection phase
against the same store is the identity: no model is re-collected and no
adapter is invoked for a permanently failing (question, model) pair. -/
theorem c9_completion_marker_always :
    (∀ (rs : RunState) (qid : Nat) (question : String)
        (participants : List (String × ModelConfig)), ∀ p ∈ participants,
      hasRespMarker (promptPhase rs qid question participants).1.store qid p.1 = true) ∧
    (∀ (rs : RunState) (qid : Nat) (question : String)
        (participants : List (String × ModelConfig)),
      promptPhase (promptPhase rs qid question participants).1 qid question participants =
        ((promptPhase rs qid question participants).1, [])) := by
  constructor
  · intro rs qid question participants p hp
    exact promptFold_markers_set qid question participants (rs, []) p hp
  · intro rs qid question participants
    exact promptFold_identity qid question participants _ (fun p hp =>
      promptFold_markers_set qid question participants (rs, []) p hp)

/-- Witness for C9: the single participant's capability cannot be resolved, so
its response is null and no row is persisted — the completion marker is set
regardless. -/
theorem c9_completion_marker_always_witness :
    hasRespMarker (promptPhase ⟨⟨[], [], [], []⟩, [], [], []⟩ 1 "q"
      [("X", none)]).1.store 1 "X" = true :=
  c9_completion_marker_always.1 ⟨⟨[], [], [], []⟩, [], [], []⟩ 1 "q" [("X", none)]
    ("X", none) (List.mem_singleton.mpr rfl)

/-- Claim C10: a model that appears only in records with a null verdict is
still present in the reducer's output, at exactly the initial score 1000.
The hypotheses are the data-model invariant (a verdict references exactly its
record's pair, which is what `evaluate_responses` persists) and that every
record mentioning `m` carries a null verdict. -/
theorem c10_null_only_model (records : List EloRecord) (m : String)
    (hpair : ∀ r ∈ records, ∀ wl, r.2.2 = some wl →
      (wl.1 = r.1 ∨ wl.1 = r.2.1) ∧ (wl.2 = r.1 ∨ wl.2 = r.2.1))
    (hnull : ∀ r ∈ records, (r.1 = m ∨ r.2.1 = m) → r.2.2 = none)
    (hmem : ∃ r ∈ records, r.1 = m ∨ r.2.1 = m) :
    ∃ s, calculate_elo_scores records = some s ∧ dictGet? s m = some 1000 := by
  obtain ⟨s, hfold, hinv, hsome⟩ := elo_fold_main 32 1000 m records [] hpair hnull
    (Or.inl rfl)
  refine ⟨s, hfold, ?_⟩
  rcases hinv with hv | hv
  · exact absurd (hsome (Or.inl hmem)) (by simp [hv])
  · exact hv

/-- Witness for C10: one record whose verdict is null. -/
theorem c10_null_only_model_witness :
    ∃ s, calculate_elo_scores [("X", "Y", none)] = some s ∧ dictGet? s "X" = some 1000 :=
  c10_null_only_model [("X", "Y", none)] "X"
    (by intro r hr wl hwl; simp at hr; simp [hr] at hwl)
    (by intro r hr _; simp at hr; simp [hr])
    ⟨("X", "Y", none), by simp⟩

end AutoElo
